import Mathlib

/-!
Verification development for the constant-expression core of a SystemRDL
compiler (src/compiler/expressions.py).  The expression node hierarchy is
embedded shallowly as an inductive type carrying the mutable
expr_eval_width cache (and, for width casts, the cast_width cache) in each
node.  The stateful width-resolution protocol (resolve_expr_width,
propagate_eval_width, get_min_eval_width) is modelled as fuel-indexed
tree-transforming functions; get_value is modelled as a structural
evaluator returning Except, where an error stands for a Python exception
or (for the XOR-reduce bit loops on negative operands) non-termination.
-/

/-- Kind tags distinguishing which node family performed a truncation.
Used to tell a null-width truncation inside an arithmetic or bitwise node
apart from the lazy truncation a width cast is allowed to do. -/
inductive NKind where
  | arith    -- binary or unary integer operators (class _BinaryIntExpr or _UnaryIntExpr)
  | shiftExp -- exponent and shift operators (class _ExpShiftExpr)
  | red      -- AndReduce, the one reduction whose get_value truncates
  | cast     -- WidthCast.get_value, which truncates to the cast width
deriving DecidableEq, Repr

/-- Evaluation failures.  nullWidth models the Python TypeError raised by
trunc when expr_eval_width is still None; runtime models every other
exception (ZeroDivisionError, int() on a non-numeric value, a negative
shift count, a negative resolved width) and the non-termination of the
XOR and XNOR reduce loops on negative operands. -/
inductive EErr where
  | nullWidth (k : NKind)
  | runtime
deriving DecidableEq, Repr

/-- Static type-prediction failures: RDLCompileError with its message, or
the NotImplementedError raised for array assignment compatibility. -/
inductive RdlErr where
  | compile (msg : String)
  | notImplemented
deriving DecidableEq, Repr

/-- The type tokens compared by predict_type: the Python classes int,
bool, str, the placeholder types Bit and Array, and each builtin RDL
enumeration type (AccessType, OnReadType, ..., distinguished by index). -/
inductive RdlType where
  | int
  | bool
  | str
  | bit
  | array
  | enum (fam : Nat)
deriving DecidableEq, Repr

/-- Runtime values produced by get_value: arbitrary-precision integers,
booleans, strings, and enumeration constants (family index and member
index). -/
inductive Value where
  | intV (i : Int)
  | boolV (b : Bool)
  | strV (s : String)
  | enumV (fam val : Nat)
deriving DecidableEq, Repr

inductive BinOp where
  | add | sub | mult | div | mod | band | bor | bxor | bxnor
deriving DecidableEq, Repr

inductive UnOp where
  | plus | minus | invert
deriving DecidableEq, Repr

inductive RelOp where
  | eq | neq | lt | gt | leq | geq
deriving DecidableEq, Repr

/-- Reduction operators: the subclasses of _ReductionExpr.  boolnot is
BoolNot, which the source also derives from _ReductionExpr. -/
inductive RedOp where
  | andr | nandr | orr | norr | xorr | xnorr | boolnot
deriving DecidableEq, Repr

inductive BoolOp where
  | band | bor
deriving DecidableEq, Repr

inductive ShiftOp where
  | exp | lshift | rshift
deriving DecidableEq, Repr

/-- Expression nodes.  The first Option Int argument of every constructor
is the mutable expr_eval_width cache (None until resolved).  WidthCast is
split by the two arms of its constructor: widthCastE is
WidthCast(v, w_expr), holding op = [v, wx] and the cast_width cache,
initially None and filled in by resolve_cast_width; widthCastI is
WidthCast(v, w_int), holding op = [v] and the fixed cast width.  The
err_ctx handle is omitted: it is only threaded into error objects. -/
inductive Expr where
  | intLit (ew : Option Int) (val : Int) (width : Nat)
  | enumLit (ew : Option Int) (fam val : Nat)
  | strLit (ew : Option Int) (s : String)
  | binInt (ew : Option Int) (o : BinOp) (l r : Expr)
  | unInt (ew : Option Int) (o : UnOp) (n : Expr)
  | rel (ew : Option Int) (o : RelOp) (l r : Expr)
  | red (ew : Option Int) (o : RedOp) (n : Expr)
  | boolE (ew : Option Int) (o : BoolOp) (l r : Expr)
  | expShift (ew : Option Int) (o : ShiftOp) (l r : Expr)
  | ternary (ew : Option Int) (i j k : Expr)
  | widthCastE (ew : Option Int) (v : Expr) (wx : Expr) (cw : Option Int)
  | widthCastI (ew : Option Int) (v : Expr) (cw : Int)
  | boolCast (ew : Option Int) (n : Expr)
  | assignCast (ew : Option Int) (v : Expr) (dest : RdlType)
deriving DecidableEq, Repr

/-- Python int(v) as used in the get_ops helpers.  int() on a string only
succeeds on numeric literals, which predict_type has already excluded
from numeric operand positions, and int() on an enum or a non-numeric
string raises; both are modelled as runtime failure. -/
def toInt : Value → Except EErr Int
  | .intV i  => .ok i
  | .boolV b => .ok (if b then 1 else 0)
  | .strV _  => .error .runtime
  | .enumV _ _ => .error .runtime

/-- Python bool(v) truthiness for the values the evaluator produces. -/
def toBool : Value → Bool
  | .intV i  => decide (i ≠ 0)
  | .boolV b => b
  | .strV s  => decide (s ≠ "")
  | .enumV _ _ => true

/-- _Expr.trunc: v & ((1 << expr_eval_width) - 1).  On arbitrary
precision two complement integers the mask-and-AND equals v mod 2^w.  A
None width raises TypeError (tagged with the truncating node kind); a
negative width raises ValueError on the shift. -/
def truncK (k : NKind) (ew : Option Int) (v : Int) : Except EErr Int :=
  match ew with
  | none => .error (.nullWidth k)
  | some w => if w < 0 then .error .runtime else .ok (v % (2 ^ w.toNat))

/-- Python int(l ** r).  For a nonnegative exponent this is integer
exponentiation; for a negative exponent Python computes a float and int()
truncates it toward zero: 0 raises ZeroDivisionError, bases 1 and -1 stay
on the unit circle, and any base of magnitude at least 2 truncates to 0. -/
def pyPow (l r : Int) : Except EErr Int :=
  if 0 ≤ r then .ok (l ^ r.toNat)
  else if l = 0 then .error .runtime
  else if l = 1 then .ok 1
  else if l = -1 then .ok ((-1) ^ (-r).toNat)
  else .ok 0

/-- The bit-parity loop shared by XorReduce and XnorReduce, indexed by
fuel: while n: (if n & 1: v ^= 1); n >>= 1.  Python right shift is floor
division by 2 and n & 1 is n mod 2.  Returning none means the loop did
not reach n = 0 within the given number of iterations. -/
def xorLoopF : Nat → Int → Int → Option Int
  | 0, n, v => if n = 0 then some v else none
  | f + 1, n, v =>
    if n = 0 then some v
    else xorLoopF f (Int.fdiv n 2) (if n % 2 = 1 then Int.xor v 1 else v)

/-- get_value for every node kind, translated case by case from the
source.  Operand evaluation order matches the Python get_ops helpers
(left fully before right); the fuel n.toNat + 1 given to the reduce loops
dominates the bit length of any nonnegative n, so the loop result is none
exactly when the Python loop does not terminate (negative n). -/
def getValue : Expr → Except EErr Value
  | .intLit _ v _ => .ok (.intV v)
  | .enumLit _ fam v => .ok (.enumV fam v)
  | .strLit _ s => .ok (.strV s)
  | .binInt ew o l r =>
    match getValue l with
    | .error x => .error x
    | .ok lv =>
      match toInt lv with
      | .error x => .error x
      | .ok li =>
        match getValue r with
        | .error x => .error x
        | .ok rv =>
          match toInt rv with
          | .error x => .error x
          | .ok ri =>
            match o with
            | .add  => (truncK .arith ew (li + ri)).map .intV
            | .sub  => (truncK .arith ew (li - ri)).map .intV
            | .mult => (truncK .arith ew (li * ri)).map .intV
            | .div  =>
              if ri = 0 then .error .runtime
              else (truncK .arith ew (Int.fdiv li ri)).map .intV
            | .mod  =>
              if ri = 0 then .error .runtime
              else (truncK .arith ew (Int.fmod li ri)).map .intV
            | .band => (truncK .arith ew (Int.land li ri)).map .intV
            | .bor  => (truncK .arith ew (Int.lor li ri)).map .intV
            | .bxor => (truncK .arith ew (Int.xor li ri)).map .intV
            | .bxnor =>
              -- Python parses l ^~ r as l ^ (~r), and ~r is -r - 1
              (truncK .arith ew (Int.xor li (-ri - 1))).map .intV
  | .unInt ew o n =>
    match getValue n with
    | .error x => .error x
    | .ok nv =>
      match toInt nv with
      | .error x => .error x
      | .ok ni =>
        match o with
        | .plus   => (truncK .arith ew ni).map .intV
        | .minus  => (truncK .arith ew (-ni)).map .intV
        | .invert => (truncK .arith ew (-ni - 1)).map .intV
  | .rel _ o l r =>
    match getValue l with
    | .error x => .error x
    | .ok lv =>
      match toInt lv with
      | .error x => .error x
      | .ok li =>
        match getValue r with
        | .error x => .error x
        | .ok rv =>
          match toInt rv with
          | .error x => .error x
          | .ok ri =>
            .ok (.boolV (match o with
              | .eq  => decide (li = ri)
              | .neq => decide (li ≠ ri)
              | .lt  => decide (li < ri)
              | .gt  => decide (ri < li)
              | .leq => decide (li ≤ ri)
              | .geq => decide (ri ≤ li)))
  | .red ew o n =>
    match o with
    | .boolnot =>
      -- BoolNot.get_value returns (not self.op[0]): the operand node
      -- object, which is always truthy, is negated instead of its value,
      -- and the operand is never evaluated.
      .ok (.boolV false)
    | _ =>
      match getValue n with
      | .error x => .error x
      | .ok nv =>
        match toInt nv with
        | .error x => .error x
        | .ok ni =>
          match o with
          | .andr =>
            match truncK .red ew (-ni - 1) with
            | .error x => .error x
            | .ok t => .ok (.intV (if t = 0 then 1 else 0))
          | .nandr => .ok (.intV (if ni = 0 then 0 else 1))
          | .orr   => .ok (.intV (if ni = 0 then 0 else 1))
          | .norr  => .ok (.intV (if ni = 0 then 1 else 0))
          | .xorr  =>
            match xorLoopF (ni.toNat + 1) ni 0 with
            | some v => .ok (.intV v)
            | none => .error .runtime
          | .xnorr =>
            match xorLoopF (ni.toNat + 1) ni 1 with
            | some v => .ok (.intV v)
            | none => .error .runtime
          | .boolnot => .ok (.boolV false)
  | .boolE _ o l r =>
    match getValue l with
    | .error x => .error x
    | .ok lv =>
      match getValue r with
      | .error x => .error x
      | .ok rv =>
        .ok (.boolV (match o with
          | .band => toBool lv && toBool rv
          | .bor  => toBool lv || toBool rv))
  | .expShift ew o l r =>
    match getValue l with
    | .error x => .error x
    | .ok lv =>
      match toInt lv with
      | .error x => .error x
      | .ok li =>
        match getValue r with
        | .error x => .error x
        | .ok rv =>
          match toInt rv with
          | .error x => .error x
          | .ok ri =>
            match o with
            | .exp =>
              match pyPow li ri with
              | .error x => .error x
              | .ok p => (truncK .shiftExp ew p).map .intV
            | .lshift =>
              if ri < 0 then .error .runtime
              else (truncK .shiftExp ew (li * 2 ^ ri.toNat)).map .intV
            | .rshift =>
              if ri < 0 then .error .runtime
              else (truncK .shiftExp ew (Int.fdiv li (2 ^ ri.toNat))).map .intV
  | .ternary _ i j k =>
    match getValue i with
    | .error x => .error x
    | .ok iv =>
      match getValue j with
      | .error x => .error x
      | .ok jv =>
        match getValue k with
        | .error x => .error x
        | .ok kv => .ok (if toBool iv then jv else kv)
  | .widthCastE _ v _ cw =>
    -- WidthCast.get_value sets expr_eval_width to cast_width and then
    -- truncates: the truncation width is the cast width, never the
    -- inherited context width.  The width sub-expression is not touched.
    match getValue v with
    | .error x => .error x
    | .ok vv =>
      match toInt vv with
      | .error x => .error x
      | .ok n => (truncK .cast cw n).map .intV
  | .widthCastI _ v cw =>
    match getValue v with
    | .error x => .error x
    | .ok vv =>
      match toInt vv with
      | .error x => .error x
      | .ok n => (truncK .cast (some cw) n).map .intV
  | .boolCast _ n =>
    match getValue n with
    | .error x => .error x
    | .ok nv =>
      match toInt nv with
      | .error x => .error x
      | .ok ni => .ok (.boolV (decide (ni ≠ 0)))
  | .assignCast _ v dest =>
    match getValue v with
    | .error x => .error x
    | .ok vv =>
      if dest = .bool then .ok (.boolV (toBool vv))
      else if dest = .bit then
        match toInt vv with
        | .error x => .error x
        | .ok n => .ok (.intV (n % 2))
      else .ok vv

/-- The numeric-compatible set [int, bool, tp.Bit] tested by the operand
type checks. -/
def numericLike : RdlType → Bool
  | .int => true
  | .bool => true
  | .bit => true
  | _ => false

def msgLeftNum : String :=
  "Left operand of expression is not a compatible numeric type"
def msgRightNum : String :=
  "Right operand of expression is not a compatible numeric type"
def msgOperandNum : String :=
  "Operand of expression is not a compatible numeric type"
def msgLeftBool : String :=
  "Left operand of expression is not a compatible boolean type"
def msgRightBool : String :=
  "Right operand of expression is not a compatible boolean type"
def msgCondBool : String :=
  "Conditional operand of expression is not a compatible boolean type"
def msgTernBranch : String :=
  "True/False results of ternary conditional are not compatible types"
def msgCastWidthNum : String :=
  "Width operand of cast expression is not a compatible numeric type"
def msgCastInt : String :=
  "Value operand of cast expression cannot be cast to an integer"
def msgCastBool : String :=
  "Value operand of cast expression cannot be cast to a boolean"
def msgAssign : String :=
  "Assignment is not compatible with the destination type"

/-- predict_type for every node kind.  Child predictions run in source
order (each operand is predicted before its membership test), so a type
error in an operand propagates before later operands are examined. -/
def predictType : Expr → Except RdlErr RdlType
  | .intLit _ _ _ => .ok .int
  | .enumLit _ fam _ => .ok (.enum fam)
  | .strLit _ _ => .ok .str
  | .binInt _ _ l r =>
    match predictType l with
    | .error x => .error x
    | .ok tl =>
      if numericLike tl = false then .error (.compile msgLeftNum)
      else
        match predictType r with
        | .error x => .error x
        | .ok tr =>
          if numericLike tr = false then .error (.compile msgRightNum)
          else .ok .int
  | .unInt _ _ n =>
    match predictType n with
    | .error x => .error x
    | .ok t =>
      if numericLike t = false then .error (.compile msgOperandNum)
      else .ok .int
  | .rel _ _ l r =>
    match predictType l with
    | .error x => .error x
    | .ok tl =>
      if numericLike tl = false then .error (.compile msgLeftNum)
      else
        match predictType r with
        | .error x => .error x
        | .ok tr =>
          if numericLike tr = false then .error (.compile msgRightNum)
          else .ok .bool
  | .red _ _ n =>
    -- _ReductionExpr.predict_type returns int (also for BoolNot)
    match predictType n with
    | .error x => .error x
    | .ok t =>
      if numericLike t = false then .error (.compile msgOperandNum)
      else .ok .int
  | .boolE _ _ l r =>
    match predictType l with
    | .error x => .error x
    | .ok tl =>
      if numericLike tl = false then .error (.compile msgLeftBool)
      else
        match predictType r with
        | .error x => .error x
        | .ok tr =>
          if numericLike tr = false then .error (.compile msgRightBool)
          else .ok .bool
  | .expShift _ _ l r =>
    match predictType l with
    | .error x => .error x
    | .ok tl =>
      if numericLike tl = false then .error (.compile msgLeftNum)
      else
        match predictType r with
        | .error x => .error x
        | .ok tr =>
          if numericLike tr = false then .error (.compile msgRightNum)
          else .ok .int
  | .ternary _ i j k =>
    match predictType i with
    | .error x => .error x
    | .ok ti =>
      if numericLike ti = false then .error (.compile msgCondBool)
      else
        match predictType j with
        | .error x => .error x
        | .ok tj =>
          match predictType k with
          | .error x => .error x
          | .ok tk =>
            -- num_t = [int, bool]: tp.Bit is not in the ternary
            -- unification set
            if (tj = .int ∨ tj = .bool) ∧ (tk = .int ∨ tk = .bool) then
              .ok .int
            else if tj ≠ tk then .error (.compile msgTernBranch)
            else .ok tj
  | .widthCastE _ v wx cw =>
    -- the width operand is only type-checked while cast_width is None
    match
      (match cw with
       | some _ => .ok .int
       | none =>
         match predictType wx with
         | .error x => .error x
         | .ok tw =>
           if numericLike tw = false then .error (.compile msgCastWidthNum)
           else .ok .int : Except RdlErr RdlType) with
    | .error x => .error x
    | .ok _ =>
      match predictType v with
      | .error x => .error x
      | .ok tv =>
        if numericLike tv = false then .error (.compile msgCastInt)
        else .ok .int
  | .widthCastI _ v _ =>
    match predictType v with
    | .error x => .error x
    | .ok tv =>
      if numericLike tv = false then .error (.compile msgCastInt)
      else .ok .int
  | .boolCast _ n =>
    match predictType n with
    | .error x => .error x
    | .ok t =>
      if numericLike t = false then .error (.compile msgCastBool)
      else .ok .bool
  | .assignCast _ v dest =>
    match predictType v with
    | .error x => .error x
    | .ok tv =>
      if numericLike dest then
        if numericLike tv = false then .error (.compile msgAssign)
        else .ok dest
      else if dest = .array then
        if tv ≠ .array then .error (.compile msgAssign)
        else .error .notImplemented
      else if dest ≠ tv then .error (.compile msgAssign)
      else .ok dest

/-- Node count of a tree, used only to pick a sufficient fuel for the
width-resolution functions. -/
def esize : Expr → Nat
  | .intLit _ _ _ => 1
  | .enumLit _ _ _ => 1
  | .strLit _ _ => 1
  | .binInt _ _ l r => esize l + esize r + 1
  | .unInt _ _ n => esize n + 1
  | .rel _ _ l r => esize l + esize r + 1
  | .red _ _ n => esize n + 1
  | .boolE _ _ l r => esize l + esize r + 1
  | .expShift _ _ l r => esize l + esize r + 1
  | .ternary _ i j k => esize i + esize j + esize k + 1
  | .widthCastE _ v wx _ => esize v + esize wx + 1
  | .widthCastI _ v _ => esize v + 1
  | .boolCast _ n => esize n + 1
  | .assignCast _ v _ => esize v + 1

/-- Which of the three width protocol entry points is being invoked on a
node: resolve_expr_width, propagate_eval_width w, or
get_min_eval_width. -/
inductive WMode where
  | res
  | prop
  | gmin
deriving DecidableEq, Repr

/-- The three mutually recursive width protocol operations, merged into
one fuel-indexed function so the recursion is structural.  The result
pairs the returned minimum width (meaningful in gmin mode, 0 otherwise)
with the updated tree; none means the fuel ran out or a Python exception
escaped (resolve_cast_width evaluating a width sub-expression that
fails).  The w argument is the context width passed to
propagate_eval_width and is ignored in the other modes.

Default behaviours from the base class _Expr: resolve_expr_width starts
from width 1, folds max over the operands through get_min_eval_width
(mutating them in place, hence the threading), then propagates the result
to the updated operands; propagate_eval_width stores w and forwards it.
Overrides are translated per class; resolve_cast_width is inlined at its
two call sites in the WidthCast cases. -/
def widthOp : Nat → WMode → Int → Expr → Option (Int × Expr)
  | 0, _, _, _ => none
  | f + 1, m, w, e =>
    match m, e with
    -- get_min_eval_width -----------------------------------------------
    | .gmin, .intLit a v wd => some ((wd : Int), .intLit a v wd)
    | .gmin, .enumLit a fam v => some (1, .enumLit a fam v)
    | .gmin, .strLit a s => some (1, .strLit a s)
    | .gmin, .binInt a o l r => do
      let pl ← widthOp f .gmin 0 l
      let pr ← widthOp f .gmin 0 r
      some (max pl.1 pr.1, .binInt a o pl.2 pr.2)
    | .gmin, .unInt a o n => do
      let pn ← widthOp f .gmin 0 n
      some (pn.1, .unInt a o pn.2)
    | .gmin, .rel a o l r => some (1, .rel a o l r)
    | .gmin, .red a o n => some (1, .red a o n)
    | .gmin, .boolE a o l r => some (1, .boolE a o l r)
    | .gmin, .expShift a o l r => do
      -- righthand operand has no influence on the evaluation context
      let pl ← widthOp f .gmin 0 l
      some (pl.1, .expShift a o pl.2 r)
    | .gmin, .ternary a i j k => do
      -- truth operand has no influence on the evaluation context
      let pj ← widthOp f .gmin 0 j
      let pk ← widthOp f .gmin 0 k
      some (max pj.1 pk.1, .ternary a i pj.2 pk.2)
    | .gmin, .widthCastE a v wx cw =>
      -- resolve_cast_width, then return the cast width
      match cw with
      | some c => some (c, .widthCastE a v wx (some c))
      | none => do
        let pw ← widthOp f .res 0 wx
        match getValue pw.2 with
        | .error _ => none
        | .ok val =>
          match toInt val with
          | .error _ => none
          | .ok c => some (c, .widthCastE a v pw.2 (some c))
    | .gmin, .widthCastI a v cw => some (cw, .widthCastI a v cw)
    | .gmin, .boolCast a n => some (1, .boolCast a n)
    | .gmin, .assignCast a v t => do
      let pv ← widthOp f .gmin 0 v
      some (pv.1, .assignCast a pv.2 t)
    -- resolve_expr_width -----------------------------------------------
    | .res, .intLit _ v wd => some (0, .intLit (some 1) v wd)
    | .res, .enumLit _ fam v => some (0, .enumLit (some 1) fam v)
    | .res, .strLit _ s => some (0, .strLit (some 1) s)
    | .res, .binInt _ o l r => do
      let pl ← widthOp f .gmin 0 l
      let pr ← widthOp f .gmin 0 r
      let ql ← widthOp f .prop (max (max 1 pl.1) pr.1) pl.2
      let qr ← widthOp f .prop (max (max 1 pl.1) pr.1) pr.2
      some (0, .binInt (some (max (max 1 pl.1) pr.1)) o ql.2 qr.2)
    | .res, .unInt _ o n => do
      let pn ← widthOp f .gmin 0 n
      let qn ← widthOp f .prop (max 1 pn.1) pn.2
      some (0, .unInt (some (max 1 pn.1)) o qn.2)
    | .res, .rel _ o l r => do
      let pl ← widthOp f .gmin 0 l
      let pr ← widthOp f .gmin 0 r
      let ql ← widthOp f .prop (max (max 1 pl.1) pr.1) pl.2
      let qr ← widthOp f .prop (max (max 1 pl.1) pr.1) pr.2
      some (0, .rel (some (max (max 1 pl.1) pr.1)) o ql.2 qr.2)
    | .res, .red _ o n => do
      let pn ← widthOp f .gmin 0 n
      let qn ← widthOp f .prop (max 1 pn.1) pn.2
      some (0, .red (some (max 1 pn.1)) o qn.2)
    | .res, .boolE a o l r =>
      -- _BoolExpr.resolve_expr_width: all operands self determined, do
      -- nothing
      some (0, .boolE a o l r)
    | .res, .expShift _ o l r => do
      -- eval width only depends on the first operand; note the absence
      -- of the max(1, _) clamp and that the right operand is untouched
      let pl ← widthOp f .gmin 0 l
      let ql ← widthOp f .prop pl.1 pl.2
      some (0, .expShift (some pl.1) o ql.2 r)
    | .res, .ternary _ i j k => do
      -- the truth operand is untouched here
      let pj ← widthOp f .gmin 0 j
      let pk ← widthOp f .gmin 0 k
      let qj ← widthOp f .prop (max (max 1 pj.1) pk.1) pj.2
      let qk ← widthOp f .prop (max (max 1 pj.1) pk.1) pk.2
      some (0, .ternary (some (max (max 1 pj.1) pk.1)) i qj.2 qk.2)
    | .res, .widthCastE a v wx cw => do
      -- resolve_cast_width, then width = max(cast width, operand min)
      let pc ← (match cw with
        | some c => some (wx, c)
        | none => do
          let pw ← widthOp f .res 0 wx
          match getValue pw.2 with
          | .error _ => none
          | .ok val =>
            match toInt val with
            | .error _ => none
            | .ok c => some (pw.2, c) : Option (Expr × Int))
      let pv ← widthOp f .gmin 0 v
      let qv ← widthOp f .prop (max pc.2 pv.1) pv.2
      some (0, .widthCastE (some (max pc.2 pv.1)) qv.2 pc.1 (some pc.2))
    | .res, .widthCastI _ v cw => do
      let pv ← widthOp f .gmin 0 v
      let qv ← widthOp f .prop (max cw pv.1) pv.2
      some (0, .widthCastI (some (max cw pv.1)) qv.2 cw)
    | .res, .boolCast _ n => do
      let pn ← widthOp f .gmin 0 n
      let qn ← widthOp f .prop (max 1 pn.1) pn.2
      some (0, .boolCast (some (max 1 pn.1)) qn.2)
    | .res, .assignCast _ v t => do
      let pv ← widthOp f .gmin 0 v
      let qv ← widthOp f .prop (max 1 pv.1) pv.2
      some (0, .assignCast (some (max 1 pv.1)) qv.2 t)
    -- propagate_eval_width ---------------------------------------------
    | .prop, .intLit a v wd => some (0, .intLit (some w) v wd)
    | .prop, .enumLit a fam v => some (0, .enumLit (some w) fam v)
    | .prop, .strLit a s => some (0, .strLit (some w) s)
    | .prop, .binInt _ o l r => do
      let ql ← widthOp f .prop w l
      let qr ← widthOp f .prop w r
      some (0, .binInt (some w) o ql.2 qr.2)
    | .prop, .unInt _ o n => do
      let qn ← widthOp f .prop w n
      some (0, .unInt (some w) o qn.2)
    | .prop, .rel a o l r =>
      -- ignore w and start a new expression context
      widthOp f .res 0 (.rel a o l r)
    | .prop, .red a o n => widthOp f .res 0 (.red a o n)
    | .prop, .boolE a o l r => do
      -- w is ignored; both operands are self determined and the own
      -- width stays untouched
      let ql ← widthOp f .res 0 l
      let qr ← widthOp f .res 0 r
      some (0, .boolE a o ql.2 qr.2)
    | .prop, .expShift _ o l r => do
      -- propagate to the left operand, self-resolve the right one
      let ql ← widthOp f .prop w l
      let qr ← widthOp f .res 0 r
      some (0, .expShift (some w) o ql.2 qr.2)
    | .prop, .ternary _ i j k => do
      let qj ← widthOp f .prop w j
      let qk ← widthOp f .prop w k
      let qi ← widthOp f .res 0 i
      some (0, .ternary (some w) qi.2 qj.2 qk.2)
    | .prop, .widthCastE a v wx cw => widthOp f .res 0 (.widthCastE a v wx cw)
    | .prop, .widthCastI a v cw => widthOp f .res 0 (.widthCastI a v cw)
    | .prop, .boolCast a n => widthOp f .res 0 (.boolCast a n)
    | .prop, .assignCast a v t => widthOp f .res 0 (.assignCast a v t)


/-- Fuel that is always sufficient: every call chain consumes at most a
bounded number of steps per visited node. -/
def fuelFor (e : Expr) : Nat := 4 * esize e + 4

/-- resolve_expr_width invoked by the consumer at the root of an
expression context, returning the updated tree. -/
def resolveExprWidth (e : Expr) : Option Expr :=
  (widthOp (fuelFor e) .res 0 e).map (fun p => p.2)

/-- propagate_eval_width w invoked on a node, returning the updated
tree. -/
def propagateEvalWidth (e : Expr) (w : Int) : Option Expr :=
  (widthOp (fuelFor e) .prop w e).map (fun p => p.2)

/-- get_min_eval_width invoked on a node, returning the minimum width
together with the node state after the call (get_min_eval_width can
mutate width casts through resolve_cast_width). -/
def getMinEvalWidth (e : Expr) : Option (Int × Expr) :=
  widthOp (fuelFor e) .gmin 0 e

/-- Nodes whose propagate_eval_width ignores the context width entirely
and instead self-resolves: relational, reduction (including BoolNot),
logical boolean, width cast, boolean cast and assignment cast. -/
def isSevering : Expr → Bool
  | .rel _ _ _ _ => true
  | .red _ _ _ => true
  | .boolE _ _ _ _ => true
  | .widthCastE _ _ _ _ => true
  | .widthCastI _ _ _ => true
  | .boolCast _ _ => true
  | .assignCast _ _ _ => true
  | _ => false

/-- True when a get_value error is a null-width truncation of a
non-cast node, i.e. exactly the failures the width protocol is supposed
to rule out (a width cast is allowed to truncate lazily). -/
def badNull : Except EErr Value → Bool
  | .error (.nullWidth .arith) => true
  | .error (.nullWidth .shiftExp) => true
  | .error (.nullWidth .red) => true
  | _ => false

mutual
/-- Subtrees that are safe with no width trigger at all: they contain no
node whose get_value truncates at its expr_eval_width on an evaluated
path.  BoolNot never evaluates its operand and width casts never
evaluate their width sub-expression during get_value, so those subtrees
are unconstrained. -/
def safeN : Expr → Bool
  | .intLit _ _ _ => true
  | .enumLit _ _ _ => true
  | .strLit _ _ => true
  | .binInt _ _ _ _ => false
  | .unInt _ _ _ => false
  | .rel _ _ l r => safeN l && safeN r
  | .red _ o n =>
    match o with
    | .boolnot => true
    | .andr => false
    | _ => safeN n
  | .boolE _ _ l r => safeN l && safeN r
  | .expShift _ _ _ _ => false
  | .ternary _ i j k => safeN i && safeN j && safeN k
  | .widthCastE _ v _ _ => safeN v
  | .widthCastI _ v _ => safeN v
  | .boolCast _ n => safeN n
  | .assignCast _ v _ => safeN v

/-- Subtrees on which receiving propagate_eval_width reaches every
truncating non-cast node with a width. -/
def safeP : Expr → Bool
  | .intLit _ _ _ => true
  | .enumLit _ _ _ => true
  | .strLit _ _ => true
  | .binInt _ _ l r => safeP l && safeP r
  | .unInt _ _ n => safeP n
  | .rel _ _ l r => safeP l && safeP r
  | .red _ _ n => safeP n
  | .boolE _ _ l r => safeR l && safeR r
  | .expShift _ _ l r => safeP l && safeR r
  | .ternary _ i j k => safeR i && safeP j && safeP k
  | .widthCastE _ v _ _ => safeP v
  | .widthCastI _ v _ => safeP v
  | .boolCast _ n => safeP n
  | .assignCast _ v _ => safeP v

/-- Subtrees on which receiving resolve_expr_width reaches every
truncating non-cast node with a width.  The difference to safeP is in
the kinds whose resolve leaves some operands untouched: a logical
boolean resolve touches neither operand, a shift or exponent resolve
skips the right operand, and a ternary resolve skips the condition. -/
def safeR : Expr → Bool
  | .intLit _ _ _ => true
  | .enumLit _ _ _ => true
  | .strLit _ _ => true
  | .binInt _ _ l r => safeP l && safeP r
  | .unInt _ _ n => safeP n
  | .rel _ _ l r => safeP l && safeP r
  | .red _ _ n => safeP n
  | .boolE _ _ l r => safeN l && safeN r
  | .expShift _ _ l r => safeP l && safeN r
  | .ternary _ i j k => safeN i && safeP j && safeP k
  | .widthCastE _ v _ _ => safeP v
  | .widthCastI _ v _ => safeP v
  | .boolCast _ n => safeP n
  | .assignCast _ v _ => safeP v
end

/-- A resolved evaluation-width cache entry is either still unset or at
least 1. -/
def ewOk : Option Int → Bool
  | none => true
  | some c => decide (1 ≤ c)

/-- All width caches in the tree satisfy ewOk. -/
def ewInv : Expr → Bool
  | .intLit a _ _ => ewOk a
  | .enumLit a _ _ => ewOk a
  | .strLit a _ => ewOk a
  | .binInt a _ l r => ewOk a && ewInv l && ewInv r
  | .unInt a _ n => ewOk a && ewInv n
  | .rel a _ l r => ewOk a && ewInv l && ewInv r
  | .red a _ n => ewOk a && ewInv n
  | .boolE a _ l r => ewOk a && ewInv l && ewInv r
  | .expShift a _ l r => ewOk a && ewInv l && ewInv r
  | .ternary a i j k => ewOk a && ewInv i && ewInv j && ewInv k
  | .widthCastE a v wx _ => ewOk a && ewInv v && ewInv wx
  | .widthCastI a v _ => ewOk a && ewInv v
  | .boolCast a n => ewOk a && ewInv n
  | .assignCast a v _ => ewOk a && ewInv v

/-- Construction data that keeps widths positive: every integer literal
is declared with width at least 1 and every width cast has a fixed cast
width at least 1 (dynamic-width casts are excluded, since their cast
width is a computed value). -/
def posW : Expr → Bool
  | .intLit _ _ wd => decide (1 ≤ wd)
  | .enumLit _ _ _ => true
  | .strLit _ _ => true
  | .binInt _ _ l r => posW l && posW r
  | .unInt _ _ n => posW n
  | .rel _ _ l r => posW l && posW r
  | .red _ _ n => posW n
  | .boolE _ _ l r => posW l && posW r
  | .expShift _ _ l r => posW l && posW r
  | .ternary _ i j k => posW i && posW j && posW k
  | .widthCastE _ _ _ _ => false
  | .widthCastI _ v cw => decide (1 ≤ cw) && posW v
  | .boolCast _ n => posW n
  | .assignCast _ v _ => posW v

/-- Trees containing no dynamic-width cast whose cast width is still
unresolved; on such trees get_min_eval_width has nothing to cache. -/
def noPend : Expr → Bool
  | .intLit _ _ _ => true
  | .enumLit _ _ _ => true
  | .strLit _ _ => true
  | .binInt _ _ l r => noPend l && noPend r
  | .unInt _ _ n => noPend n
  | .rel _ _ l r => noPend l && noPend r
  | .red _ _ n => noPend n
  | .boolE _ _ l r => noPend l && noPend r
  | .expShift _ _ l r => noPend l && noPend r
  | .ternary _ i j k => noPend i && noPend j && noPend k
  | .widthCastE _ v _ cw => cw.isSome && noPend v
  | .widthCastI _ v _ => noPend v
  | .boolCast _ n => noPend n
  | .assignCast _ v _ => noPend v

deriving instance DecidableEq for Except

/-! ## Helper lemmas about get_value and null-width truncations -/

theorem toInt_error_runtime : ∀ {v : Value} {x : EErr}, toInt v = .error x → x = .runtime
  | .intV _, _, h => Except.noConfusion h
  | .boolV _, _, h => Except.noConfusion h
  | .strV _, _, h => by injection h with h; exact h.symm
  | .enumV _ _, _, h => by injection h with h; exact h.symm

theorem badNull_truncK_map (k : NKind) (w : Int) (c : Int) :
    badNull ((truncK k (some w) c).map Value.intV) = false := by
  simp only [truncK]
  split <;> rfl

theorem badNull_truncK_cast (a : Option Int) (c : Int) :
    badNull ((truncK .cast a c).map Value.intV) = false := by
  cases a with
  | none => rfl
  | some w => exact badNull_truncK_map .cast w c

theorem wok_binInt (w : Int) (o : BinOp) (l r : Expr)
    (hl : badNull (getValue l) = false) (hr : badNull (getValue r) = false) :
    badNull (getValue (.binInt (some w) o l r)) = false := by
  cases hgl : getValue l with
  | error x => simp only [getValue, hgl]; rw [hgl] at hl; exact hl
  | ok lv =>
    cases htl : toInt lv with
    | error x => simp [getValue, hgl, htl, toInt_error_runtime htl, badNull]
    | ok li =>
      cases hgr : getValue r with
      | error x => simp only [getValue, hgl, htl, hgr]; rw [hgr] at hr; exact hr
      | ok rv =>
        cases htr : toInt rv with
        | error x => simp [getValue, hgl, htl, hgr, htr, toInt_error_runtime htr, badNull]
        | ok ri =>
          simp only [getValue, hgl, htl, hgr, htr]
          cases o <;> dsimp only <;> (try split) <;>
            first
              | rfl
              | exact badNull_truncK_map _ _ _

theorem wok_unInt (w : Int) (o : UnOp) (n : Expr)
    (hn : badNull (getValue n) = false) :
    badNull (getValue (.unInt (some w) o n)) = false := by
  cases hgn : getValue n with
  | error x => simp only [getValue, hgn]; rw [hgn] at hn; exact hn
  | ok nv =>
    cases htn : toInt nv with
    | error x => simp [getValue, hgn, htn, toInt_error_runtime htn, badNull]
    | ok ni =>
      simp only [getValue, hgn, htn]
      cases o <;> dsimp only <;> exact badNull_truncK_map _ _ _

theorem wok_rel (a : Option Int) (o : RelOp) (l r : Expr)
    (hl : badNull (getValue l) = false) (hr : badNull (getValue r) = false) :
    badNull (getValue (.rel a o l r)) = false := by
  cases hgl : getValue l with
  | error x => simp only [getValue, hgl]; rw [hgl] at hl; exact hl
  | ok lv =>
    cases htl : toInt lv with
    | error x => simp [getValue, hgl, htl, toInt_error_runtime htl, badNull]
    | ok li =>
      cases hgr : getValue r with
      | error x => simp only [getValue, hgl, htl, hgr]; rw [hgr] at hr; exact hr
      | ok rv =>
        cases htr : toInt rv with
        | error x => simp [getValue, hgl, htl, hgr, htr, toInt_error_runtime htr, badNull]
        | ok ri => simp [getValue, hgl, htl, hgr, htr, badNull]

theorem truncK_some_error {k : NKind} {w c : Int} {x : EErr}
    (h : truncK k (some w) c = .error x) : x = .runtime := by
  simp only [truncK] at h
  split at h
  · injection h with h; exact h.symm
  · exact Except.noConfusion h

theorem wok_red_some (w : Int) (o : RedOp) (n : Expr)
    (hn : badNull (getValue n) = false) :
    badNull (getValue (.red (some w) o n)) = false := by
  cases o
  case boolnot => rfl
  all_goals
    cases hgn : getValue n with
    | error x => simp only [getValue, hgn]; rw [hgn] at hn; exact hn
    | ok nv =>
      cases htn : toInt nv with
      | error x => simp [getValue, hgn, htn, toInt_error_runtime htn, badNull]
      | ok ni =>
        simp only [getValue, hgn, htn]
        first
        | rfl
        | (cases ht : truncK .red (some w) (-ni - 1) with
           | error x =>
             have hx := truncK_some_error ht
             subst hx
             simp [ht, badNull]
           | ok t => simp [ht, badNull])
        | ((cases hx : xorLoopF (ni.toNat + 1) ni 0 <;> simp [hx, badNull]); done)
        | ((cases hx : xorLoopF (ni.toNat + 1) ni 1 <;> simp [hx, badNull]); done)

theorem wok_red_any (a : Option Int) (o : RedOp) (n : Expr) (ho : o ≠ .andr)
    (hn : badNull (getValue n) = false) :
    badNull (getValue (.red a o n)) = false := by
  cases o
  case andr => exact absurd rfl ho
  case boolnot => rfl
  all_goals
    cases hgn : getValue n with
    | error x => simp only [getValue, hgn]; rw [hgn] at hn; exact hn
    | ok nv =>
      cases htn : toInt nv with
      | error x => simp [getValue, hgn, htn, toInt_error_runtime htn, badNull]
      | ok ni =>
        simp only [getValue, hgn, htn]
        first
        | rfl
        | ((cases hx : xorLoopF (ni.toNat + 1) ni 0 <;> simp [hx, badNull]); done)
        | ((cases hx : xorLoopF (ni.toNat + 1) ni 1 <;> simp [hx, badNull]); done)

theorem wok_boolE (a : Option Int) (o : BoolOp) (l r : Expr)
    (hl : badNull (getValue l) = false) (hr : badNull (getValue r) = false) :
    badNull (getValue (.boolE a o l r)) = false := by
  cases hgl : getValue l with
  | error x => simp only [getValue, hgl]; rw [hgl] at hl; exact hl
  | ok lv =>
    cases hgr : getValue r with
    | error x => simp only [getValue, hgl, hgr]; rw [hgr] at hr; exact hr
    | ok rv => simp [getValue, hgl, hgr, badNull]

theorem wok_expShift (w : Int) (o : ShiftOp) (l r : Expr)
    (hl : badNull (getValue l) = false) (hr : badNull (getValue r) = false) :
    badNull (getValue (.expShift (some w) o l r)) = false := by
  cases hgl : getValue l with
  | error x => simp only [getValue, hgl]; rw [hgl] at hl; exact hl
  | ok lv =>
    cases htl : toInt lv with
    | error x => simp [getValue, hgl, htl, toInt_error_runtime htl, badNull]
    | ok li =>
      cases hgr : getValue r with
      | error x => simp only [getValue, hgl, htl, hgr]; rw [hgr] at hr; exact hr
      | ok rv =>
        cases htr : toInt rv with
        | error x => simp [getValue, hgl, htl, hgr, htr, toInt_error_runtime htr, badNull]
        | ok ri =>
          simp only [getValue, hgl, htl, hgr, htr]
          cases o <;> dsimp only
          case exp =>
            cases hp : pyPow li ri with
            | error x =>
              have hx : x = EErr.runtime := by
                simp only [pyPow] at hp
                split at hp
                · exact Except.noConfusion hp
                · split at hp
                  · injection hp with hp; exact hp.symm
                  · split at hp
                    · exact Except.noConfusion hp
                    · split at hp
                      · exact Except.noConfusion hp
                      · exact Except.noConfusion hp
              subst hx
              simp [hp, badNull]
            | ok p => simp [hp, badNull_truncK_map]
          all_goals
            split
            · rfl
            · exact badNull_truncK_map _ _ _

theorem wok_ternary (a : Option Int) (i j k : Expr)
    (hi : badNull (getValue i) = false) (hj : badNull (getValue j) = false)
    (hk : badNull (getValue k) = false) :
    badNull (getValue (.ternary a i j k)) = false := by
  cases hgi : getValue i with
  | error x => simp only [getValue, hgi]; rw [hgi] at hi; exact hi
  | ok iv =>
    cases hgj : getValue j with
    | error x => simp only [getValue, hgi, hgj]; rw [hgj] at hj; exact hj
    | ok jv =>
      cases hgk : getValue k with
      | error x => simp only [getValue, hgi, hgj, hgk]; rw [hgk] at hk; exact hk
      | ok kv => simp [getValue, hgi, hgj, hgk, badNull]

theorem wok_widthCastE (a : Option Int) (v wx : Expr) (cw : Option Int)
    (hv : badNull (getValue v) = false) :
    badNull (getValue (.widthCastE a v wx cw)) = false := by
  cases hgv : getValue v with
  | error x => simp only [getValue, hgv]; rw [hgv] at hv; exact hv
  | ok vv =>
    cases htv : toInt vv with
    | error x => simp [getValue, hgv, htv, toInt_error_runtime htv, badNull]
    | ok n => simp only [getValue, hgv, htv]; exact badNull_truncK_cast cw n

theorem wok_widthCastI (a : Option Int) (v : Expr) (cw : Int)
    (hv : badNull (getValue v) = false) :
    badNull (getValue (.widthCastI a v cw)) = false := by
  cases hgv : getValue v with
  | error x => simp only [getValue, hgv]; rw [hgv] at hv; exact hv
  | ok vv =>
    cases htv : toInt vv with
    | error x => simp [getValue, hgv, htv, toInt_error_runtime htv, badNull]
    | ok n => simp only [getValue, hgv, htv]; exact badNull_truncK_cast (some cw) n

theorem wok_boolCast (a : Option Int) (n : Expr)
    (hn : badNull (getValue n) = false) :
    badNull (getValue (.boolCast a n)) = false := by
  cases hgn : getValue n with
  | error x => simp only [getValue, hgn]; rw [hgn] at hn; exact hn
  | ok nv =>
    cases htn : toInt nv with
    | error x => simp [getValue, hgn, htn, toInt_error_runtime htn, badNull]
    | ok ni => simp [getValue, hgn, htn, badNull]

theorem wok_assignCast (a : Option Int) (v : Expr) (t : RdlType)
    (hv : badNull (getValue v) = false) :
    badNull (getValue (.assignCast a v t)) = false := by
  cases hgv : getValue v with
  | error x => simp only [getValue, hgv]; rw [hgv] at hv; exact hv
  | ok vv =>
    simp only [getValue, hgv]
    split
    · rfl
    · split
      · cases htv : toInt vv with
        | error x => simp [htv, toInt_error_runtime htv, badNull]
        | ok n => simp [htv, badNull]
      · rfl

/-- Subtrees with no evaluated truncating non-cast node never fail with a
bad null-width truncation, resolved or not. -/
theorem safeN_wok : ∀ e : Expr, safeN e = true → badNull (getValue e) = false := by
  intro e
  induction e with
  | intLit a v wd => intro _; rfl
  | enumLit a fam v => intro _; rfl
  | strLit a s => intro _; rfl
  | binInt a o l r ihl ihr => intro h; simp [safeN] at h
  | unInt a o n ihn => intro h; simp [safeN] at h
  | rel a o l r ihl ihr =>
    intro h
    simp only [safeN, Bool.and_eq_true] at h
    exact wok_rel a o l r (ihl h.1) (ihr h.2)
  | red a o n ihn =>
    intro h
    cases o
    case boolnot => rfl
    case andr => simp [safeN] at h
    all_goals
      simp only [safeN] at h
      exact wok_red_any a _ n (by intro hc; cases hc) (ihn h)
  | boolE a o l r ihl ihr =>
    intro h
    simp only [safeN, Bool.and_eq_true] at h
    exact wok_boolE a o l r (ihl h.1) (ihr h.2)
  | expShift a o l r ihl ihr => intro h; simp [safeN] at h
  | ternary a i j k ihi ihj ihk =>
    intro h
    simp only [safeN, Bool.and_eq_true] at h
    exact wok_ternary a i j k (ihi h.1.1) (ihj h.1.2) (ihk h.2)
  | widthCastE a v wx cw ihv ihwx =>
    intro h
    simp only [safeN] at h
    exact wok_widthCastE a v wx cw (ihv h)
  | widthCastI a v cw ihv =>
    intro h
    simp only [safeN] at h
    exact wok_widthCastI a v cw (ihv h)
  | boolCast a n ihn =>
    intro h
    simp only [safeN] at h
    exact wok_boolCast a n (ihn h)
  | assignCast a v t ihv =>
    intro h
    simp only [safeN] at h
    exact wok_assignCast a v t (ihv h)

/-- Main width-protocol invariant: on safeR trees resolve_expr_width
reaches every truncating non-cast node (likewise propagate on safeP
trees), so the resulting tree never fails with a non-cast null-width
truncation; and get_min_eval_width preserves the safety classification
of a tree (it only fills caches). -/
theorem width_main : ∀ f : Nat, ∀ e : Expr, ∀ w : Int, ∀ rp : Int × Expr,
    (widthOp f .res 0 e = some rp → safeR e = true →
      badNull (getValue rp.2) = false) ∧
    (widthOp f .prop w e = some rp → safeP e = true →
      badNull (getValue rp.2) = false) ∧
    (widthOp f .gmin 0 e = some rp →
      safeN rp.2 = safeN e ∧ safeP rp.2 = safeP e ∧ safeR rp.2 = safeR e) := by
  intro f
  induction f with
  | zero =>
    intro e w rp
    refine ⟨?_, ?_, ?_⟩ <;> intro h <;> simp [widthOp] at h
  | succ f ih =>
    intro e w rp
    refine ⟨?_, ?_, ?_⟩
    -- resolve_expr_width ---------------------------------------------
    · cases e with
      | intLit a v wd =>
        intro h _
        simp only [widthOp, Option.some.injEq] at h
        rw [← h]; rfl
      | enumLit a fam v =>
        intro h _
        simp only [widthOp, Option.some.injEq] at h
        rw [← h]; rfl
      | strLit a s =>
        intro h _
        simp only [widthOp, Option.some.injEq] at h
        rw [← h]; rfl
      | binInt a o el er =>
        intro h hs
        simp only [safeR, Bool.and_eq_true] at hs
        simp only [widthOp, Option.bind_eq_bind', Option.some_bind, Option.bind_eq_some',
          Option.some.injEq] at h
        obtain ⟨pl, hpl, pr, hpr, ql, hql, qr, hqr, hr2⟩ := h
        have Pl := (ih el 0 pl).2.2 hpl
        have Pr := (ih er 0 pr).2.2 hpr
        have Wl := (ih pl.2 _ ql).2.1 hql (Pl.2.1.trans hs.1)
        have Wr := (ih pr.2 _ qr).2.1 hqr (Pr.2.1.trans hs.2)
        rw [← hr2]
        exact wok_binInt _ o ql.2 qr.2 Wl Wr
      | unInt a o en =>
        intro h hs
        simp only [safeR] at hs
        simp only [widthOp, Option.bind_eq_bind', Option.some_bind, Option.bind_eq_some',
          Option.some.injEq] at h
        obtain ⟨pn, hpn, qn, hqn, hr2⟩ := h
        have Pn := (ih en 0 pn).2.2 hpn
        have Wn := (ih pn.2 _ qn).2.1 hqn (Pn.2.1.trans hs)
        rw [← hr2]
        exact wok_unInt _ o qn.2 Wn
      | rel a o el er =>
        intro h hs
        simp only [safeR, Bool.and_eq_true] at hs
        simp only [widthOp, Option.bind_eq_bind', Option.some_bind, Option.bind_eq_some',
          Option.some.injEq] at h
        obtain ⟨pl, hpl, pr, hpr, ql, hql, qr, hqr, hr2⟩ := h
        have Pl := (ih el 0 pl).2.2 hpl
        have Pr := (ih er 0 pr).2.2 hpr
        have Wl := (ih pl.2 _ ql).2.1 hql (Pl.2.1.trans hs.1)
        have Wr := (ih pr.2 _ qr).2.1 hqr (Pr.2.1.trans hs.2)
        rw [← hr2]
        exact wok_rel _ o ql.2 qr.2 Wl Wr
      | red a o en =>
        intro h hs
        simp only [safeR] at hs
        simp only [widthOp, Option.bind_eq_bind', Option.some_bind, Option.bind_eq_some',
          Option.some.injEq] at h
        obtain ⟨pn, hpn, qn, hqn, hr2⟩ := h
        have Pn := (ih en 0 pn).2.2 hpn
        have Wn := (ih pn.2 _ qn).2.1 hqn (Pn.2.1.trans hs)
        rw [← hr2]
        exact wok_red_some _ o qn.2 Wn
      | boolE a o el er =>
        intro h hs
        simp only [safeR, Bool.and_eq_true] at hs
        simp only [widthOp, Option.some.injEq] at h
        rw [← h]
        exact wok_boolE a o el er (safeN_wok el hs.1) (safeN_wok er hs.2)
      | expShift a o el er =>
        intro h hs
        simp only [safeR, Bool.and_eq_true] at hs
        simp only [widthOp, Option.bind_eq_bind', Option.some_bind, Option.bind_eq_some',
          Option.some.injEq] at h
        obtain ⟨pl, hpl, ql, hql, hr2⟩ := h
        have Pl := (ih el 0 pl).2.2 hpl
        have Wl := (ih pl.2 _ ql).2.1 hql (Pl.2.1.trans hs.1)
        rw [← hr2]
        exact wok_expShift _ o ql.2 er Wl (safeN_wok er hs.2)
      | ternary a ti tj tk =>
        intro h hs
        simp only [safeR, Bool.and_eq_true] at hs
        simp only [widthOp, Option.bind_eq_bind', Option.some_bind, Option.bind_eq_some',
          Option.some.injEq] at h
        obtain ⟨pj, hpj, pk, hpk, qj, hqj, qk, hqk, hr2⟩ := h
        have Pj := (ih tj 0 pj).2.2 hpj
        have Pk := (ih tk 0 pk).2.2 hpk
        have Wj := (ih pj.2 _ qj).2.1 hqj (Pj.2.1.trans hs.1.2)
        have Wk := (ih pk.2 _ qk).2.1 hqk (Pk.2.1.trans hs.2)
        rw [← hr2]
        exact wok_ternary _ ti qj.2 qk.2 (safeN_wok ti hs.1.1) Wj Wk
      | widthCastE a tv twx cw =>
        intro h hs
        simp only [safeR] at hs
        cases cw with
        | some c =>
          simp only [widthOp, Option.bind_eq_bind', Option.some_bind, Option.bind_eq_some',
            Option.some.injEq] at h
          obtain ⟨pv, hpv, qv, hqv, hr2⟩ := h
          have Pv := (ih tv 0 pv).2.2 hpv
          have Wv := (ih pv.2 _ qv).2.1 hqv (Pv.2.1.trans hs)
          rw [← hr2]
          exact wok_widthCastE _ qv.2 twx _ Wv
        | none =>
          simp only [widthOp, Option.bind_eq_bind', Option.some_bind, Option.bind_eq_some',
            Option.some.injEq] at h
          obtain ⟨pc, ⟨pw, hpw, hm⟩, pv, hpv, qv, hqv, hr2⟩ := h
          have Pv := (ih tv 0 pv).2.2 hpv
          have Wv := (ih pv.2 _ qv).2.1 hqv (Pv.2.1.trans hs)
          rw [← hr2]
          exact wok_widthCastE _ qv.2 pc.1 _ Wv
      | widthCastI a tv cw =>
        intro h hs
        simp only [safeR] at hs
        simp only [widthOp, Option.bind_eq_bind', Option.some_bind, Option.bind_eq_some',
          Option.some.injEq] at h
        obtain ⟨pv, hpv, qv, hqv, hr2⟩ := h
        have Pv := (ih tv 0 pv).2.2 hpv
        have Wv := (ih pv.2 _ qv).2.1 hqv (Pv.2.1.trans hs)
        rw [← hr2]
        exact wok_widthCastI _ qv.2 cw Wv
      | boolCast a en =>
        intro h hs
        simp only [safeR] at hs
        simp only [widthOp, Option.bind_eq_bind', Option.some_bind, Option.bind_eq_some',
          Option.some.injEq] at h
        obtain ⟨pn, hpn, qn, hqn, hr2⟩ := h
        have Pn := (ih en 0 pn).2.2 hpn
        have Wn := (ih pn.2 _ qn).2.1 hqn (Pn.2.1.trans hs)
        rw [← hr2]
        exact wok_boolCast _ qn.2 Wn
      | assignCast a tv tt =>
        intro h hs
        simp only [safeR] at hs
        simp only [widthOp, Option.bind_eq_bind', Option.some_bind, Option.bind_eq_some',
          Option.some.injEq] at h
        obtain ⟨pv, hpv, qv, hqv, hr2⟩ := h
        have Pv := (ih tv 0 pv).2.2 hpv
        have Wv := (ih pv.2 _ qv).2.1 hqv (Pv.2.1.trans hs)
        rw [← hr2]
        exact wok_assignCast _ qv.2 tt Wv
    -- propagate_eval_width -------------------------------------------
    · cases e with
      | intLit a v wd =>
        intro h _
        simp only [widthOp, Option.some.injEq] at h
        rw [← h]; rfl
      | enumLit a fam v =>
        intro h _
        simp only [widthOp, Option.some.injEq] at h
        rw [← h]; rfl
      | strLit a s =>
        intro h _
        simp only [widthOp, Option.some.injEq] at h
        rw [← h]; rfl
      | binInt a o el er =>
        intro h hs
        simp only [safeP, Bool.and_eq_true] at hs
        simp only [widthOp, Option.bind_eq_bind', Option.some_bind, Option.bind_eq_some',
          Option.some.injEq] at h
        obtain ⟨ql, hql, qr, hqr, hr2⟩ := h
        have Wl := (ih el _ ql).2.1 hql hs.1
        have Wr := (ih er _ qr).2.1 hqr hs.2
        rw [← hr2]
        exact wok_binInt _ o ql.2 qr.2 Wl Wr
      | unInt a o en =>
        intro h hs
        simp only [safeP] at hs
        simp only [widthOp, Option.bind_eq_bind', Option.some_bind, Option.bind_eq_some',
          Option.some.injEq] at h
        obtain ⟨qn, hqn, hr2⟩ := h
        have Wn := (ih en _ qn).2.1 hqn hs
        rw [← hr2]
        exact wok_unInt _ o qn.2 Wn
      | rel a o el er =>
        intro h hs
        simp only [safeP, Bool.and_eq_true] at hs
        simp only [widthOp] at h
        exact (ih (.rel a o el er) 0 rp).1 h
          (by simp only [safeR, Bool.and_eq_true]; exact hs)
      | red a o en =>
        intro h hs
        simp only [safeP] at hs
        simp only [widthOp] at h
        exact (ih (.red a o en) 0 rp).1 h (by simp only [safeR]; exact hs)
      | boolE a o el er =>
        intro h hs
        simp only [safeP, Bool.and_eq_true] at hs
        simp only [widthOp, Option.bind_eq_bind', Option.some_bind, Option.bind_eq_some',
          Option.some.injEq] at h
        obtain ⟨ql, hql, qr, hqr, hr2⟩ := h
        have Wl := (ih el 0 ql).1 hql hs.1
        have Wr := (ih er 0 qr).1 hqr hs.2
        rw [← hr2]
        exact wok_boolE a o ql.2 qr.2 Wl Wr
      | expShift a o el er =>
        intro h hs
        simp only [safeP, Bool.and_eq_true] at hs
        simp only [widthOp, Option.bind_eq_bind', Option.some_bind, Option.bind_eq_some',
          Option.some.injEq] at h
        obtain ⟨ql, hql, qr, hqr, hr2⟩ := h
        have Wl := (ih el _ ql).2.1 hql hs.1
        have Wr := (ih er 0 qr).1 hqr hs.2
        rw [← hr2]
        exact wok_expShift _ o ql.2 qr.2 Wl Wr
      | ternary a ti tj tk =>
        intro h hs
        simp only [safeP, Bool.and_eq_true] at hs
        simp only [widthOp, Option.bind_eq_bind', Option.some_bind, Option.bind_eq_some',
          Option.some.injEq] at h
        obtain ⟨qj, hqj, qk, hqk, qi, hqi, hr2⟩ := h
        have Wj := (ih tj _ qj).2.1 hqj hs.1.2
        have Wk := (ih tk _ qk).2.1 hqk hs.2
        have Wi := (ih ti 0 qi).1 hqi hs.1.1
        rw [← hr2]
        exact wok_ternary _ qi.2 qj.2 qk.2 Wi Wj Wk
      | widthCastE a tv twx cw =>
        intro h hs
        simp only [safeP] at hs
        simp only [widthOp] at h
        exact (ih (.widthCastE a tv twx cw) 0 rp).1 h
          (by simp only [safeR]; exact hs)
      | widthCastI a tv cw =>
        intro h hs
        simp only [safeP] at hs
        simp only [widthOp] at h
        exact (ih (.widthCastI a tv cw) 0 rp).1 h
          (by simp only [safeR]; exact hs)
      | boolCast a en =>
        intro h hs
        simp only [safeP] at hs
        simp only [widthOp] at h
        exact (ih (.boolCast a en) 0 rp).1 h (by simp only [safeR]; exact hs)
      | assignCast a tv tt =>
        intro h hs
        simp only [safeP] at hs
        simp only [widthOp] at h
        exact (ih (.assignCast a tv tt) 0 rp).1 h
          (by simp only [safeR]; exact hs)
    -- get_min_eval_width ---------------------------------------------
    · cases e with
      | intLit a v wd =>
        intro h
        simp only [widthOp, Option.some.injEq] at h
        rw [← h]
        exact ⟨rfl, rfl, rfl⟩
      | enumLit a fam v =>
        intro h
        simp only [widthOp, Option.some.injEq] at h
        rw [← h]
        exact ⟨rfl, rfl, rfl⟩
      | strLit a s =>
        intro h
        simp only [widthOp, Option.some.injEq] at h
        rw [← h]
        exact ⟨rfl, rfl, rfl⟩
      | binInt a o el er =>
        intro h
        simp only [widthOp, Option.bind_eq_bind', Option.some_bind, Option.bind_eq_some',
          Option.some.injEq] at h
        obtain ⟨pl, hpl, pr, hpr, hr2⟩ := h
        have Pl := (ih el 0 pl).2.2 hpl
        have Pr := (ih er 0 pr).2.2 hpr
        rw [← hr2]
        exact ⟨by simp [safeN], by simp [safeP, Pl.2.1, Pr.2.1],
          by simp [safeR, Pl.2.1, Pr.2.1]⟩
      | unInt a o en =>
        intro h
        simp only [widthOp, Option.bind_eq_bind', Option.some_bind, Option.bind_eq_some',
          Option.some.injEq] at h
        obtain ⟨pn, hpn, hr2⟩ := h
        have Pn := (ih en 0 pn).2.2 hpn
        rw [← hr2]
        exact ⟨by simp [safeN], by simp [safeP, Pn.2.1],
          by simp [safeR, Pn.2.1]⟩
      | rel a o el er =>
        intro h
        simp only [widthOp, Option.some.injEq] at h
        rw [← h]
        exact ⟨rfl, rfl, rfl⟩
      | red a o en =>
        intro h
        simp only [widthOp, Option.some.injEq] at h
        rw [← h]
        exact ⟨rfl, rfl, rfl⟩
      | boolE a o el er =>
        intro h
        simp only [widthOp, Option.some.injEq] at h
        rw [← h]
        exact ⟨rfl, rfl, rfl⟩
      | expShift a o el er =>
        intro h
        simp only [widthOp, Option.bind_eq_bind', Option.some_bind, Option.bind_eq_some',
          Option.some.injEq] at h
        obtain ⟨pl, hpl, hr2⟩ := h
        have Pl := (ih el 0 pl).2.2 hpl
        rw [← hr2]
        exact ⟨by simp [safeN], by simp [safeP, Pl.2.1],
          by simp [safeR, Pl.2.1]⟩
      | ternary a ti tj tk =>
        intro h
        simp only [widthOp, Option.bind_eq_bind', Option.some_bind, Option.bind_eq_some',
          Option.some.injEq] at h
        obtain ⟨pj, hpj, pk, hpk, hr2⟩ := h
        have Pj := (ih tj 0 pj).2.2 hpj
        have Pk := (ih tk 0 pk).2.2 hpk
        rw [← hr2]
        exact ⟨by simp [safeN, Pj.1, Pk.1],
          by simp [safeP, Pj.2.1, Pk.2.1],
          by simp [safeR, Pj.2.1, Pk.2.1]⟩
      | widthCastE a tv twx cw =>
        intro h
        cases cw with
        | some c =>
          simp only [widthOp, Option.some.injEq] at h
          rw [← h]
          exact ⟨rfl, rfl, rfl⟩
        | none =>
          simp only [widthOp, Option.bind_eq_bind', Option.some_bind, Option.bind_eq_some',
            Option.some.injEq] at h
          obtain ⟨pw, hpw, h⟩ := h
          split at h
          · exact Option.noConfusion h
          · split at h
            · exact Option.noConfusion h
            · rw [Option.some.injEq] at h
              rw [← h]
              exact ⟨by simp [safeN], by simp [safeP], by simp [safeR]⟩
      | widthCastI a tv cw =>
        intro h
        simp only [widthOp, Option.some.injEq] at h
        rw [← h]
        exact ⟨rfl, rfl, rfl⟩
      | boolCast a en =>
        intro h
        simp only [widthOp, Option.some.injEq] at h
        rw [← h]
        exact ⟨rfl, rfl, rfl⟩
      | assignCast a tv tt =>
        intro h
        simp only [widthOp, Option.bind_eq_bind', Option.some_bind, Option.bind_eq_some',
          Option.some.injEq] at h
        obtain ⟨pv, hpv, hr2⟩ := h
        have Pv := (ih tv 0 pv).2.2 hpv
        rw [← hr2]
        exact ⟨by simp [safeN, Pv.1], by simp [safeP, Pv.2.1],
          by simp [safeR, Pv.2.1]⟩

theorem one_le_max3 (a b : Int) : (1 : Int) ≤ max (max 1 a) b :=
  le_max_of_le_left (le_max_left 1 a)

theorem one_le_max_left {a : Int} (b : Int) (h : (1 : Int) ≤ a) :
    (1 : Int) ≤ max a b :=
  le_max_of_le_left h

/-- Width-positivity invariant: when every literal width and fixed cast
width is at least 1, every width the protocol writes into a cache is at
least 1, and get_min_eval_width returns at least 1. -/
theorem width_pos_main : ∀ f : Nat, ∀ e : Expr, ∀ w : Int, ∀ rp : Int × Expr,
    (posW e = true → ewInv e = true → widthOp f .res 0 e = some rp →
      ewInv rp.2 = true ∧ posW rp.2 = true) ∧
    (posW e = true → ewInv e = true → 1 ≤ w → widthOp f .prop w e = some rp →
      ewInv rp.2 = true ∧ posW rp.2 = true) ∧
    (posW e = true → ewInv e = true → widthOp f .gmin 0 e = some rp →
      ewInv rp.2 = true ∧ posW rp.2 = true ∧ 1 ≤ rp.1) := by
  intro f
  induction f with
  | zero =>
    intro e w rp
    refine ⟨?_, ?_, ?_⟩ <;> intro _ _ <;> first
      | (intro h; simp [widthOp] at h)
      | (intro _ h; simp [widthOp] at h)
  | succ f ih =>
    intro e w rp
    refine ⟨?_, ?_, ?_⟩
    -- resolve_expr_width ---------------------------------------------
    · cases e with
      | intLit a v wd =>
        intro hp hv h
        simp only [widthOp, Option.some.injEq] at h
        rw [← h]
        exact ⟨by simp [ewInv, ewOk], hp⟩
      | enumLit a fam v =>
        intro hp hv h
        simp only [widthOp, Option.some.injEq] at h
        rw [← h]
        exact ⟨by simp [ewInv, ewOk], hp⟩
      | strLit a s =>
        intro hp hv h
        simp only [widthOp, Option.some.injEq] at h
        rw [← h]
        exact ⟨by simp [ewInv, ewOk], hp⟩
      | binInt a o el er =>
        intro hp hv h
        simp only [posW, Bool.and_eq_true] at hp
        simp only [ewInv, Bool.and_eq_true] at hv
        simp only [widthOp, Option.bind_eq_bind', Option.some_bind,
          Option.bind_eq_some', Option.some.injEq] at h
        obtain ⟨pl, hpl, pr, hpr, ql, hql, qr, hqr, hr2⟩ := h
        have Pl := (ih el 0 pl).2.2 hp.1 hv.1.2 hpl
        have Pr := (ih er 0 pr).2.2 hp.2 hv.2 hpr
        have Ql := (ih pl.2 _ ql).2.1 Pl.2.1 Pl.1 (one_le_max3 _ _) hql
        have Qr := (ih pr.2 _ qr).2.1 Pr.2.1 Pr.1 (one_le_max3 _ _) hqr
        rw [← hr2]
        refine ⟨?_, ?_⟩
        · simp only [ewInv, Bool.and_eq_true, ewOk, decide_eq_true_eq]
          exact ⟨⟨one_le_max3 _ _, Ql.1⟩, Qr.1⟩
        · simp only [posW, Bool.and_eq_true]
          exact ⟨Ql.2, Qr.2⟩
      | unInt a o en =>
        intro hp hv h
        simp only [posW] at hp
        simp only [ewInv, Bool.and_eq_true] at hv
        simp only [widthOp, Option.bind_eq_bind', Option.some_bind,
          Option.bind_eq_some', Option.some.injEq] at h
        obtain ⟨pn, hpn, qn, hqn, hr2⟩ := h
        have Pn := (ih en 0 pn).2.2 hp hv.2 hpn
        have Qn := (ih pn.2 _ qn).2.1 Pn.2.1 Pn.1 (le_max_left 1 pn.1) hqn
        rw [← hr2]
        refine ⟨?_, ?_⟩
        · simp only [ewInv, Bool.and_eq_true, ewOk, decide_eq_true_eq]
          exact ⟨le_max_left 1 pn.1, Qn.1⟩
        · simpa [posW] using Qn.2
      | rel a o el er =>
        intro hp hv h
        simp only [posW, Bool.and_eq_true] at hp
        simp only [ewInv, Bool.and_eq_true] at hv
        simp only [widthOp, Option.bind_eq_bind', Option.some_bind,
          Option.bind_eq_some', Option.some.injEq] at h
        obtain ⟨pl, hpl, pr, hpr, ql, hql, qr, hqr, hr2⟩ := h
        have Pl := (ih el 0 pl).2.2 hp.1 hv.1.2 hpl
        have Pr := (ih er 0 pr).2.2 hp.2 hv.2 hpr
        have Ql := (ih pl.2 _ ql).2.1 Pl.2.1 Pl.1 (one_le_max3 _ _) hql
        have Qr := (ih pr.2 _ qr).2.1 Pr.2.1 Pr.1 (one_le_max3 _ _) hqr
        rw [← hr2]
        refine ⟨?_, ?_⟩
        · simp only [ewInv, Bool.and_eq_true, ewOk, decide_eq_true_eq]
          exact ⟨⟨one_le_max3 _ _, Ql.1⟩, Qr.1⟩
        · simp only [posW, Bool.and_eq_true]
          exact ⟨Ql.2, Qr.2⟩
      | red a o en =>
        intro hp hv h
        simp only [posW] at hp
        simp only [ewInv, Bool.and_eq_true] at hv
        simp only [widthOp, Option.bind_eq_bind', Option.some_bind,
          Option.bind_eq_some', Option.some.injEq] at h
        obtain ⟨pn, hpn, qn, hqn, hr2⟩ := h
        have Pn := (ih en 0 pn).2.2 hp hv.2 hpn
        have Qn := (ih pn.2 _ qn).2.1 Pn.2.1 Pn.1 (le_max_left 1 pn.1) hqn
        rw [← hr2]
        refine ⟨?_, ?_⟩
        · simp only [ewInv, Bool.and_eq_true, ewOk, decide_eq_true_eq]
          exact ⟨le_max_left 1 pn.1, Qn.1⟩
        · simpa [posW] using Qn.2
      | boolE a o el er =>
        intro hp hv h
        simp only [widthOp, Option.some.injEq] at h
        rw [← h]
        exact ⟨hv, hp⟩
      | expShift a o el er =>
        intro hp hv h
        simp only [posW, Bool.and_eq_true] at hp
        simp only [ewInv, Bool.and_eq_true] at hv
        simp only [widthOp, Option.bind_eq_bind', Option.some_bind,
          Option.bind_eq_some', Option.some.injEq] at h
        obtain ⟨pl, hpl, ql, hql, hr2⟩ := h
        have Pl := (ih el 0 pl).2.2 hp.1 hv.1.2 hpl
        have Ql := (ih pl.2 _ ql).2.1 Pl.2.1 Pl.1 Pl.2.2 hql
        rw [← hr2]
        refine ⟨?_, ?_⟩
        · simp only [ewInv, Bool.and_eq_true, ewOk, decide_eq_true_eq]
          exact ⟨⟨Pl.2.2, Ql.1⟩, hv.2⟩
        · simp only [posW, Bool.and_eq_true]
          exact ⟨Ql.2, hp.2⟩
      | ternary a ti tj tk =>
        intro hp hv h
        simp only [posW, Bool.and_eq_true] at hp
        simp only [ewInv, Bool.and_eq_true] at hv
        simp only [widthOp, Option.bind_eq_bind', Option.some_bind,
          Option.bind_eq_some', Option.some.injEq] at h
        obtain ⟨pj, hpj, pk, hpk, qj, hqj, qk, hqk, hr2⟩ := h
        have Pj := (ih tj 0 pj).2.2 hp.1.2 hv.1.2 hpj
        have Pk := (ih tk 0 pk).2.2 hp.2 hv.2 hpk
        have Qj := (ih pj.2 _ qj).2.1 Pj.2.1 Pj.1 (one_le_max3 _ _) hqj
        have Qk := (ih pk.2 _ qk).2.1 Pk.2.1 Pk.1 (one_le_max3 _ _) hqk
        rw [← hr2]
        refine ⟨?_, ?_⟩
        · simp only [ewInv, Bool.and_eq_true, ewOk, decide_eq_true_eq]
          exact ⟨⟨⟨one_le_max3 _ _, hv.1.1.2⟩, Qj.1⟩, Qk.1⟩
        · simp only [posW, Bool.and_eq_true]
          exact ⟨⟨hp.1.1, Qj.2⟩, Qk.2⟩
      | widthCastE a tv twx cw =>
        intro hp hv h
        simp [posW] at hp
      | widthCastI a tv cw =>
        intro hp hv h
        simp only [posW, Bool.and_eq_true, decide_eq_true_eq] at hp
        simp only [ewInv, Bool.and_eq_true] at hv
        simp only [widthOp, Option.bind_eq_bind', Option.some_bind,
          Option.bind_eq_some', Option.some.injEq] at h
        obtain ⟨pv, hpv, qv, hqv, hr2⟩ := h
        have Pv := (ih tv 0 pv).2.2 hp.2 hv.2 hpv
        have Qv := (ih pv.2 _ qv).2.1 Pv.2.1 Pv.1 (one_le_max_left _ hp.1) hqv
        rw [← hr2]
        refine ⟨?_, ?_⟩
        · simp only [ewInv, Bool.and_eq_true, ewOk, decide_eq_true_eq]
          exact ⟨one_le_max_left _ hp.1, Qv.1⟩
        · simp only [posW, Bool.and_eq_true, decide_eq_true_eq]
          exact ⟨hp.1, Qv.2⟩
      | boolCast a en =>
        intro hp hv h
        simp only [posW] at hp
        simp only [ewInv, Bool.and_eq_true] at hv
        simp only [widthOp, Option.bind_eq_bind', Option.some_bind,
          Option.bind_eq_some', Option.some.injEq] at h
        obtain ⟨pn, hpn, qn, hqn, hr2⟩ := h
        have Pn := (ih en 0 pn).2.2 hp hv.2 hpn
        have Qn := (ih pn.2 _ qn).2.1 Pn.2.1 Pn.1 (le_max_left 1 pn.1) hqn
        rw [← hr2]
        refine ⟨?_, ?_⟩
        · simp only [ewInv, Bool.and_eq_true, ewOk, decide_eq_true_eq]
          exact ⟨le_max_left 1 pn.1, Qn.1⟩
        · simpa [posW] using Qn.2
      | assignCast a tv tt =>
        intro hp hv h
        simp only [posW] at hp
        simp only [ewInv, Bool.and_eq_true] at hv
        simp only [widthOp, Option.bind_eq_bind', Option.some_bind,
          Option.bind_eq_some', Option.some.injEq] at h
        obtain ⟨pv, hpv, qv, hqv, hr2⟩ := h
        have Pv := (ih tv 0 pv).2.2 hp hv.2 hpv
        have Qv := (ih pv.2 _ qv).2.1 Pv.2.1 Pv.1 (le_max_left 1 pv.1) hqv
        rw [← hr2]
        refine ⟨?_, ?_⟩
        · simp only [ewInv, Bool.and_eq_true, ewOk, decide_eq_true_eq]
          exact ⟨le_max_left 1 pv.1, Qv.1⟩
        · simpa [posW] using Qv.2
    -- propagate_eval_width -------------------------------------------
    · cases e with
      | intLit a v wd =>
        intro hp hv hw h
        simp only [widthOp, Option.some.injEq] at h
        rw [← h]
        exact ⟨by simp [ewInv, ewOk]; exact hw, hp⟩
      | enumLit a fam v =>
        intro hp hv hw h
        simp only [widthOp, Option.some.injEq] at h
        rw [← h]
        exact ⟨by simp [ewInv, ewOk]; exact hw, hp⟩
      | strLit a s =>
        intro hp hv hw h
        simp only [widthOp, Option.some.injEq] at h
        rw [← h]
        exact ⟨by simp [ewInv, ewOk]; exact hw, hp⟩
      | binInt a o el er =>
        intro hp hv hw h
        simp only [posW, Bool.and_eq_true] at hp
        simp only [ewInv, Bool.and_eq_true] at hv
        simp only [widthOp, Option.bind_eq_bind', Option.some_bind,
          Option.bind_eq_some', Option.some.injEq] at h
        obtain ⟨ql, hql, qr, hqr, hr2⟩ := h
        have Ql := (ih el _ ql).2.1 hp.1 hv.1.2 hw hql
        have Qr := (ih er _ qr).2.1 hp.2 hv.2 hw hqr
        rw [← hr2]
        refine ⟨?_, ?_⟩
        · simp only [ewInv, Bool.and_eq_true, ewOk, decide_eq_true_eq]
          exact ⟨⟨hw, Ql.1⟩, Qr.1⟩
        · simp only [posW, Bool.and_eq_true]
          exact ⟨Ql.2, Qr.2⟩
      | unInt a o en =>
        intro hp hv hw h
        simp only [posW] at hp
        simp only [ewInv, Bool.and_eq_true] at hv
        simp only [widthOp, Option.bind_eq_bind', Option.some_bind,
          Option.bind_eq_some', Option.some.injEq] at h
        obtain ⟨qn, hqn, hr2⟩ := h
        have Qn := (ih en _ qn).2.1 hp hv.2 hw hqn
        rw [← hr2]
        refine ⟨?_, ?_⟩
        · simp only [ewInv, Bool.and_eq_true, ewOk, decide_eq_true_eq]
          exact ⟨hw, Qn.1⟩
        · simpa [posW] using Qn.2
      | rel a o el er =>
        intro hp hv hw h
        simp only [widthOp] at h
        exact (ih (.rel a o el er) 0 rp).1 hp hv h
      | red a o en =>
        intro hp hv hw h
        simp only [widthOp] at h
        exact (ih (.red a o en) 0 rp).1 hp hv h
      | boolE a o el er =>
        intro hp hv hw h
        simp only [posW, Bool.and_eq_true] at hp
        simp only [ewInv, Bool.and_eq_true] at hv
        simp only [widthOp, Option.bind_eq_bind', Option.some_bind,
          Option.bind_eq_some', Option.some.injEq] at h
        obtain ⟨ql, hql, qr, hqr, hr2⟩ := h
        have Ql := (ih el 0 ql).1 hp.1 hv.1.2 hql
        have Qr := (ih er 0 qr).1 hp.2 hv.2 hqr
        rw [← hr2]
        refine ⟨?_, ?_⟩
        · simp only [ewInv, Bool.and_eq_true]
          exact ⟨⟨hv.1.1, Ql.1⟩, Qr.1⟩
        · simp only [posW, Bool.and_eq_true]
          exact ⟨Ql.2, Qr.2⟩
      | expShift a o el er =>
        intro hp hv hw h
        simp only [posW, Bool.and_eq_true] at hp
        simp only [ewInv, Bool.and_eq_true] at hv
        simp only [widthOp, Option.bind_eq_bind', Option.some_bind,
          Option.bind_eq_some', Option.some.injEq] at h
        obtain ⟨ql, hql, qr, hqr, hr2⟩ := h
        have Ql := (ih el _ ql).2.1 hp.1 hv.1.2 hw hql
        have Qr := (ih er 0 qr).1 hp.2 hv.2 hqr
        rw [← hr2]
        refine ⟨?_, ?_⟩
        · simp only [ewInv, Bool.and_eq_true, ewOk, decide_eq_true_eq]
          exact ⟨⟨hw, Ql.1⟩, Qr.1⟩
        · simp only [posW, Bool.and_eq_true]
          exact ⟨Ql.2, Qr.2⟩
      | ternary a ti tj tk =>
        intro hp hv hw h
        simp only [posW, Bool.and_eq_true] at hp
        simp only [ewInv, Bool.and_eq_true] at hv
        simp only [widthOp, Option.bind_eq_bind', Option.some_bind,
          Option.bind_eq_some', Option.some.injEq] at h
        obtain ⟨qj, hqj, qk, hqk, qi, hqi, hr2⟩ := h
        have Qj := (ih tj _ qj).2.1 hp.1.2 hv.1.2 hw hqj
        have Qk := (ih tk _ qk).2.1 hp.2 hv.2 hw hqk
        have Qi := (ih ti 0 qi).1 hp.1.1 hv.1.1.2 hqi
        rw [← hr2]
        refine ⟨?_, ?_⟩
        · simp only [ewInv, Bool.and_eq_true, ewOk, decide_eq_true_eq]
          exact ⟨⟨⟨hw, Qi.1⟩, Qj.1⟩, Qk.1⟩
        · simp only [posW, Bool.and_eq_true]
          exact ⟨⟨Qi.2, Qj.2⟩, Qk.2⟩
      | widthCastE a tv twx cw =>
        intro hp hv hw h
        simp only [widthOp] at h
        exact (ih (.widthCastE a tv twx cw) 0 rp).1 hp hv h
      | widthCastI a tv cw =>
        intro hp hv hw h
        simp only [widthOp] at h
        exact (ih (.widthCastI a tv cw) 0 rp).1 hp hv h
      | boolCast a en =>
        intro hp hv hw h
        simp only [widthOp] at h
        exact (ih (.boolCast a en) 0 rp).1 hp hv h
      | assignCast a tv tt =>
        intro hp hv hw h
        simp only [widthOp] at h
        exact (ih (.assignCast a tv tt) 0 rp).1 hp hv h
    -- get_min_eval_width ---------------------------------------------
    · cases e with
      | intLit a v wd =>
        intro hp hv h
        simp only [widthOp, Option.some.injEq] at h
        simp only [posW, decide_eq_true_eq] at hp
        rw [← h]
        refine ⟨hv, by simp [posW]; exact hp, ?_⟩
        show (1 : Int) ≤ (wd : Int)
        exact_mod_cast hp
      | enumLit a fam v =>
        intro hp hv h
        simp only [widthOp, Option.some.injEq] at h
        rw [← h]
        exact ⟨hv, hp, le_rfl⟩
      | strLit a s =>
        intro hp hv h
        simp only [widthOp, Option.some.injEq] at h
        rw [← h]
        exact ⟨hv, hp, le_rfl⟩
      | binInt a o el er =>
        intro hp hv h
        simp only [posW, Bool.and_eq_true] at hp
        simp only [ewInv, Bool.and_eq_true] at hv
        simp only [widthOp, Option.bind_eq_bind', Option.some_bind,
          Option.bind_eq_some', Option.some.injEq] at h
        obtain ⟨pl, hpl, pr, hpr, hr2⟩ := h
        have Pl := (ih el 0 pl).2.2 hp.1 hv.1.2 hpl
        have Pr := (ih er 0 pr).2.2 hp.2 hv.2 hpr
        rw [← hr2]
        refine ⟨?_, ?_, ?_⟩
        · simp only [ewInv, Bool.and_eq_true]
          exact ⟨⟨hv.1.1, Pl.1⟩, Pr.1⟩
        · simp only [posW, Bool.and_eq_true]
          exact ⟨Pl.2.1, Pr.2.1⟩
        · exact le_max_of_le_left Pl.2.2
      | unInt a o en =>
        intro hp hv h
        simp only [posW] at hp
        simp only [ewInv, Bool.and_eq_true] at hv
        simp only [widthOp, Option.bind_eq_bind', Option.some_bind,
          Option.bind_eq_some', Option.some.injEq] at h
        obtain ⟨pn, hpn, hr2⟩ := h
        have Pn := (ih en 0 pn).2.2 hp hv.2 hpn
        rw [← hr2]
        refine ⟨?_, ?_, Pn.2.2⟩
        · simp only [ewInv, Bool.and_eq_true]
          exact ⟨hv.1, Pn.1⟩
        · simpa [posW] using Pn.2.1
      | rel a o el er =>
        intro hp hv h
        simp only [widthOp, Option.some.injEq] at h
        rw [← h]
        exact ⟨hv, hp, le_rfl⟩
      | red a o en =>
        intro hp hv h
        simp only [widthOp, Option.some.injEq] at h
        rw [← h]
        exact ⟨hv, hp, le_rfl⟩
      | boolE a o el er =>
        intro hp hv h
        simp only [widthOp, Option.some.injEq] at h
        rw [← h]
        exact ⟨hv, hp, le_rfl⟩
      | expShift a o el er =>
        intro hp hv h
        simp only [posW, Bool.and_eq_true] at hp
        simp only [ewInv, Bool.and_eq_true] at hv
        simp only [widthOp, Option.bind_eq_bind', Option.some_bind,
          Option.bind_eq_some', Option.some.injEq] at h
        obtain ⟨pl, hpl, hr2⟩ := h
        have Pl := (ih el 0 pl).2.2 hp.1 hv.1.2 hpl
        rw [← hr2]
        refine ⟨?_, ?_, Pl.2.2⟩
        · simp only [ewInv, Bool.and_eq_true]
          exact ⟨⟨hv.1.1, Pl.1⟩, hv.2⟩
        · simp only [posW, Bool.and_eq_true]
          exact ⟨Pl.2.1, hp.2⟩
      | ternary a ti tj tk =>
        intro hp hv h
        simp only [posW, Bool.and_eq_true] at hp
        simp only [ewInv, Bool.and_eq_true] at hv
        simp only [widthOp, Option.bind_eq_bind', Option.some_bind,
          Option.bind_eq_some', Option.some.injEq] at h
        obtain ⟨pj, hpj, pk, hpk, hr2⟩ := h
        have Pj := (ih tj 0 pj).2.2 hp.1.2 hv.1.2 hpj
        have Pk := (ih tk 0 pk).2.2 hp.2 hv.2 hpk
        rw [← hr2]
        refine ⟨?_, ?_, le_max_of_le_left Pj.2.2⟩
        · simp only [ewInv, Bool.and_eq_true]
          exact ⟨⟨⟨hv.1.1.1, hv.1.1.2⟩, Pj.1⟩, Pk.1⟩
        · simp only [posW, Bool.and_eq_true]
          exact ⟨⟨hp.1.1, Pj.2.1⟩, Pk.2.1⟩
      | widthCastE a tv twx cw =>
        intro hp hv h
        simp [posW] at hp
      | widthCastI a tv cw =>
        intro hp hv h
        simp only [posW, Bool.and_eq_true, decide_eq_true_eq] at hp
        simp only [widthOp, Option.some.injEq] at h
        rw [← h]
        exact ⟨hv, by simp [posW, hp.1, hp.2], hp.1⟩
      | boolCast a en =>
        intro hp hv h
        simp only [widthOp, Option.some.injEq] at h
        rw [← h]
        exact ⟨hv, hp, le_rfl⟩
      | assignCast a tv tt =>
        intro hp hv h
        simp only [posW] at hp
        simp only [ewInv, Bool.and_eq_true] at hv
        simp only [widthOp, Option.bind_eq_bind', Option.some_bind,
          Option.bind_eq_some', Option.some.injEq] at h
        obtain ⟨pv, hpv, hr2⟩ := h
        have Pv := (ih tv 0 pv).2.2 hp hv.2 hpv
        rw [← hr2]
        refine ⟨?_, ?_, Pv.2.2⟩
        · simp only [ewInv, Bool.and_eq_true]
          exact ⟨hv.1, Pv.1⟩
        · simpa [posW] using Pv.2.1

/-- On trees with no pending dynamic cast width, get_min_eval_width
returns the tree unchanged. -/
theorem gmin_pure_main : ∀ f : Nat, ∀ e : Expr, ∀ rp : Int × Expr,
    noPend e = true → widthOp f .gmin 0 e = some rp → rp.2 = e := by
  intro f
  induction f with
  | zero => intro e rp _ h; simp [widthOp] at h
  | succ f ih =>
    intro e rp hnp h
    cases e with
    | intLit a v wd => simp only [widthOp, Option.some.injEq] at h; rw [← h]
    | enumLit a fam v => simp only [widthOp, Option.some.injEq] at h; rw [← h]
    | strLit a s => simp only [widthOp, Option.some.injEq] at h; rw [← h]
    | binInt a o el er =>
      simp only [noPend, Bool.and_eq_true] at hnp
      simp only [widthOp, Option.bind_eq_bind', Option.some_bind,
        Option.bind_eq_some', Option.some.injEq] at h
      obtain ⟨pl, hpl, pr, hpr, hr2⟩ := h
      rw [← hr2]
      show Expr.binInt a o pl.2 pr.2 = Expr.binInt a o el er
      rw [ih el pl hnp.1 hpl, ih er pr hnp.2 hpr]
    | unInt a o en =>
      simp only [noPend] at hnp
      simp only [widthOp, Option.bind_eq_bind', Option.some_bind,
        Option.bind_eq_some', Option.some.injEq] at h
      obtain ⟨pn, hpn, hr2⟩ := h
      rw [← hr2]
      show Expr.unInt a o pn.2 = Expr.unInt a o en
      rw [ih en pn hnp hpn]
    | rel a o el er => simp only [widthOp, Option.some.injEq] at h; rw [← h]
    | red a o en => simp only [widthOp, Option.some.injEq] at h; rw [← h]
    | boolE a o el er => simp only [widthOp, Option.some.injEq] at h; rw [← h]
    | expShift a o el er =>
      simp only [noPend, Bool.and_eq_true] at hnp
      simp only [widthOp, Option.bind_eq_bind', Option.some_bind,
        Option.bind_eq_some', Option.some.injEq] at h
      obtain ⟨pl, hpl, hr2⟩ := h
      rw [← hr2]
      show Expr.expShift a o pl.2 er = Expr.expShift a o el er
      rw [ih el pl hnp.1 hpl]
    | ternary a ti tj tk =>
      simp only [noPend, Bool.and_eq_true] at hnp
      simp only [widthOp, Option.bind_eq_bind', Option.some_bind,
        Option.bind_eq_some', Option.some.injEq] at h
      obtain ⟨pj, hpj, pk, hpk, hr2⟩ := h
      rw [← hr2]
      show Expr.ternary a ti pj.2 pk.2 = Expr.ternary a ti tj tk
      rw [ih tj pj hnp.1.2 hpj, ih tk pk hnp.2 hpk]
    | widthCastE a tv twx cw =>
      simp only [noPend, Bool.and_eq_true] at hnp
      cases cw with
      | some c => simp only [widthOp, Option.some.injEq] at h; rw [← h]
      | none => simp [Option.isSome] at hnp
    | widthCastI a tv cw => simp only [widthOp, Option.some.injEq] at h; rw [← h]
    | boolCast a en => simp only [widthOp, Option.some.injEq] at h; rw [← h]
    | assignCast a tv tt =>
      simp only [noPend] at hnp
      simp only [widthOp, Option.bind_eq_bind', Option.some_bind,
        Option.bind_eq_some', Option.some.injEq] at h
      obtain ⟨pv, hpv, hr2⟩ := h
      rw [← hr2]
      show Expr.assignCast a pv.2 tt = Expr.assignCast a tv tt
      rw [ih tv pv hnp hpv]

/-- propagate_eval_width on a context-severing node never reads the
width it is handed. -/
theorem severing_prop_aux : ∀ (f : Nat) (e : Expr) (w1 w2 : Int),
    isSevering e = true → widthOp f .prop w1 e = widthOp f .prop w2 e := by
  intro f e w1 w2 hs
  cases f with
  | zero => rfl
  | succ f =>
    cases e <;> ((try simp [isSevering] at hs) ; (try simp only [widthOp]))

/-- One resolve step on a fixed-width cast keeps the constructed cast
width. -/
theorem resolve_widthCastI_shape (f : Nat) (a : Option Int) (v : Expr)
    (cw : Int) (rp : Int × Expr)
    (h : widthOp (f + 1) .res 0 (.widthCastI a v cw) = some rp) :
    ∃ wv v2, rp = (0, .widthCastI (some wv) v2 cw) := by
  simp only [widthOp, Option.bind_eq_bind', Option.some_bind,
    Option.bind_eq_some', Option.some.injEq] at h
  obtain ⟨pv, hpv, qv, hqv, hr2⟩ := h
  exact ⟨_, _, hr2.symm⟩

/-- The reduce bit loop never terminates on a negative operand: the
floor shift keeps the value negative. -/
theorem xorLoopF_neg : ∀ (f : Nat) (n v : Int), n < 0 → xorLoopF f n v = none := by
  intro f
  induction f with
  | zero =>
    intro n v hn
    have hn0 : n ≠ 0 := by omega
    simp [xorLoopF, hn0]
  | succ f ih =>
    intro n v hn
    have hn0 : n ≠ 0 := by omega
    simp only [xorLoopF, if_neg hn0]
    apply ih
    rw [Int.fdiv_eq_ediv _ (by norm_num)]
    exact Int.ediv_neg' hn (by norm_num)

/-- The reduce bit loop reaches zero within f iterations whenever the
nonnegative operand is below 2 to the f. -/
theorem xorLoopF_term : ∀ (f : Nat) (n v : Int), 0 ≤ n → n < 2 ^ f →
    (xorLoopF f n v).isSome = true := by
  intro f
  induction f with
  | zero =>
    intro n v h0 h1
    rw [pow_zero] at h1
    have : n = 0 := by omega
    simp [xorLoopF, this]
  | succ f ih =>
    intro n v h0 h1
    by_cases hz : n = 0
    · simp [xorLoopF, hz]
    · simp only [xorLoopF, if_neg hz]
      apply ih
      · rw [Int.fdiv_eq_ediv _ (by norm_num)]
        exact Int.ediv_nonneg h0 (by norm_num)
      · rw [Int.fdiv_eq_ediv _ (by norm_num)]
        rw [Int.ediv_lt_iff_lt_mul (by norm_num)]
        calc n < 2 ^ (f + 1) := h1
          _ = 2 ^ f * 2 := by ring

/-- The reduce bit loop does not reach zero within f iterations when
the nonnegative operand is at least 2 to the f: each iteration floors a
halving, so at least the full bit length of the operand is needed. -/
theorem xorLoopF_nonterm : ∀ (f : Nat) (n v : Int), 0 ≤ n → 2 ^ f ≤ n →
    xorLoopF f n v = none := by
  intro f
  induction f with
  | zero =>
    intro n v h0 h1
    rw [pow_zero] at h1
    have hn0 : n ≠ 0 := by omega
    simp [xorLoopF, hn0]
  | succ f ih =>
    intro n v h0 h1
    have hn0 : n ≠ 0 := by
      have : (0 : Int) < 2 ^ (f + 1) := by positivity
      omega
    simp only [xorLoopF, if_neg hn0]
    apply ih
    · rw [Int.fdiv_eq_ediv _ (by norm_num)]
      exact Int.ediv_nonneg h0 (by norm_num)
    · rw [Int.fdiv_eq_ediv _ (by norm_num)]
      rw [Int.le_ediv_iff_mul_le (by norm_num)]
      calc (2 : Int) ^ f * 2 = 2 ^ (f + 1) := by ring
        _ ≤ n := h1

/-! ## Claim theorems -/

/-- Claim C1, counterexample.  A logical-boolean root passes
predict_type, but its resolve_expr_width does nothing, so the compound
Add operand keeps a null expr_eval_width and get_value truncates the
Add at a null width: the claim fails for a tree whose root is a
logical-boolean node with a compound operand. -/
theorem bool_root_null_width_counterexample :
    predictType (.boolE none .band
      (.binInt none .add (.intLit none 1 4) (.intLit none 2 4))
      (.intLit none 1 4)) = .ok .bool ∧
    resolveExprWidth (.boolE none .band
      (.binInt none .add (.intLit none 1 4) (.intLit none 2 4))
      (.intLit none 1 4)) =
      some (.boolE none .band
        (.binInt none .add (.intLit none 1 4) (.intLit none 2 4))
        (.intLit none 1 4)) ∧
    getValue (.boolE none .band
      (.binInt none .add (.intLit none 1 4) (.intLit none 2 4))
      (.intLit none 1 4)) = .error (.nullWidth .arith) :=
  ⟨by decide, by decide, by decide⟩

/-- Claim C1 (amended): after resolve_expr_width at the root succeeds,
every integer arithmetic/bitwise (and shift/exponent and and-reduce)
node is truncated at a non-null width during get_value — only a cast
can still truncate lazily at a null width — provided the tree is safeR:
every self-determined operand position that the resolve pass leaves
untouched (both operands of a logical-boolean root, the right operand
of a shift/exponent, the condition of a ternary, recursively) contains
no width-truncating non-cast node. -/
theorem safe_resolve_no_null_width_trunc (e e' : Expr)
    (hs : safeR e = true) (h : resolveExprWidth e = some e') :
    badNull (getValue e') = false := by
  simp only [resolveExprWidth, Option.map_eq_some'] at h
  obtain ⟨rp, hrp, hr2⟩ := h
  rw [← hr2]
  exact (width_main (fuelFor e) e 0 rp).1 hrp hs

/-- Witness for C1 at a concrete safe tree. -/
theorem safe_resolve_no_null_width_trunc_witness :
    badNull (getValue (.binInt (some 8) .add
      (.intLit (some 8) 5 8) (.intLit (some 8) 3 8))) = false :=
  safe_resolve_no_null_width_trunc
    (.binInt none .add (.intLit none 5 8) (.intLit none 3 8))
    (.binInt (some 8) .add (.intLit (some 8) 5 8) (.intLit (some 8) 3 8))
    (by decide) (by decide)

/-- Claim C2: propagate_eval_width on a context-severing node
(relational, reduction, logical boolean, width/bool/assignment cast)
ignores the handed width entirely: any two context widths produce the
identical resolved tree and hence the identical get_value result. -/
theorem severing_propagate_width_independent (e : Expr) (w1 w2 : Int)
    (hs : isSevering e = true) :
    propagateEvalWidth e w1 = propagateEvalWidth e w2 ∧
    (propagateEvalWidth e w1).map getValue =
      (propagateEvalWidth e w2).map getValue := by
  have h := severing_prop_aux (fuelFor e) e w1 w2 hs
  constructor
  · simp only [propagateEvalWidth, h]
  · simp only [propagateEvalWidth, h]

/-- Witness for C2: an equality comparison nested under context widths
8 and 32 resolves and evaluates identically. -/
theorem severing_propagate_width_independent_witness :
    propagateEvalWidth (.rel none .eq (.intLit none 5 64) (.intLit none 5 3)) 8 =
      propagateEvalWidth (.rel none .eq (.intLit none 5 64) (.intLit none 5 3)) 32 ∧
    (propagateEvalWidth (.rel none .eq (.intLit none 5 64) (.intLit none 5 3)) 8).map getValue =
      (propagateEvalWidth (.rel none .eq (.intLit none 5 64) (.intLit none 5 3)) 32).map getValue :=
  severing_propagate_width_independent
    (.rel none .eq (.intLit none 5 64) (.intLit none 5 3)) 8 32 (by decide)

/-- Claim C3: after width resolution, a WidthCast with a fixed
construction-time cast width w evaluates to the value operand's result
modulo 2 to the w — the cast width, not the inherited context width. -/
theorem widthCast_truncates_to_cast_width (a a' : Option Int) (v v' : Expr)
    (w : Nat) (cw' : Int) (n : Int)
    (h1 : resolveExprWidth (.widthCastI a v (w : Int)) =
      some (.widthCastI a' v' cw'))
    (h2 : getValue v' = .ok (.intV n)) :
    getValue (.widthCastI a' v' cw') = .ok (.intV (n % 2 ^ w)) := by
  have hcw : cw' = (w : Int) := by
    simp only [resolveExprWidth, Option.map_eq_some'] at h1
    obtain ⟨rp, hrp, hr2⟩ := h1
    rw [show fuelFor (.widthCastI a v (w : Int)) =
      (4 * esize (.widthCastI a v (w : Int)) + 3) + 1 from rfl] at hrp
    obtain ⟨wv, v2, hshape⟩ := resolve_widthCastI_shape _ a v _ rp hrp
    rw [hshape] at hr2
    injection hr2 with hr2a hr2b hr2c
    exact hr2c.symm
  subst hcw
  simp only [getValue, h2, toInt, truncK]
  have hnn : ¬ ((w : Int) < 0) := by omega
  rw [if_neg hnn]
  simp [Except.map, Int.toNat_natCast]

/-- Witness for C3: Example 4 of the spec,
WidthCast(IntLiteral(300, width=64), w_int=8) evaluates to 44. -/
theorem widthCast_truncates_to_cast_width_witness :
    getValue (.widthCastI (some 64) (.intLit (some 64) 300 64) 8) =
      .ok (.intV (300 % 2 ^ 8)) :=
  widthCast_truncates_to_cast_width none (some 64)
    (.intLit none 300 64) (.intLit (some 64) 300 64) 8 8 300
    (by decide) (by decide)

/-- Claim C4, code bug evidence: on the all-ones 4-bit operand 15,
AndReduce yields 1, so its boolean inversion is 0, yet NandReduce also
yields 1 — NandReduce.get_value computes int(n != 0), identical to
OrReduce, instead of inverting AndReduce. -/
theorem nandReduce_equals_orReduce_on_allones :
    (resolveExprWidth (.red none .nandr (.intLit none 15 4))).map getValue =
      some (.ok (.intV 1)) ∧
    (resolveExprWidth (.red none .andr (.intLit none 15 4))).map getValue =
      some (.ok (.intV 1)) ∧
    (resolveExprWidth (.red none .orr (.intLit none 15 4))).map getValue =
      some (.ok (.intV 1)) :=
  ⟨by decide, by decide, by decide⟩

/-- Claim C5, counterexample.  Div(-7, 2) at width 8 evaluates with
floor division: floor(-7 / 2) = -4, truncated to 252 — not the
truncate-toward-zero quotient -3, which would truncate to 253. -/
theorem div_floor_counterexample :
    (resolveExprWidth (.binInt none .div
      (.intLit none (-7) 8) (.intLit none 2 8))).map getValue =
      some (.ok (.intV 252)) ∧
    (resolveExprWidth (.binInt none .div
      (.intLit none (-7) 8) (.intLit none 2 8))).map getValue ≠
      some (.ok (.intV (Int.tdiv (-7) 2 % 2 ^ 8))) :=
  ⟨by decide, by decide⟩

/-- Claim C5 (amended): for nonzero divisors, Div evaluates to the
floor (toward negative infinity) quotient truncated to the resolved
width, and Mod to the Python-style floor remainder (sign of the
divisor) truncated to the resolved width — Python // and %, not the
truncating-toward-zero hardware semantics the claim states. -/
theorem div_mod_floor_semantics (wv : Int) (l r : Expr) (li ri : Int)
    (hl : getValue l = .ok (.intV li)) (hr : getValue r = .ok (.intV ri))
    (hr0 : ri ≠ 0) (hw : 0 ≤ wv) :
    getValue (.binInt (some wv) .div l r) =
      .ok (.intV (Int.fdiv li ri % 2 ^ wv.toNat)) ∧
    getValue (.binInt (some wv) .mod l r) =
      .ok (.intV (Int.fmod li ri % 2 ^ wv.toNat)) := by
  have hnn : ¬ (wv < 0) := by omega
  constructor <;>
    simp [getValue, hl, hr, toInt, truncK, hr0, hnn, Except.map]

/-- Witness for C5 at Div(-7, 2) and Mod(-7, 2) in width 8. -/
theorem div_mod_floor_semantics_witness :
    getValue (.binInt (some 8) .div
      (.intLit (some 8) (-7) 8) (.intLit (some 8) 2 8)) =
      .ok (.intV (Int.fdiv (-7) 2 % 2 ^ (8 : Int).toNat)) ∧
    getValue (.binInt (some 8) .mod
      (.intLit (some 8) (-7) 8) (.intLit (some 8) 2 8)) =
      .ok (.intV (Int.fmod (-7) 2 % 2 ^ (8 : Int).toNat)) :=
  div_mod_floor_semantics 8 (.intLit (some 8) (-7) 8) (.intLit (some 8) 2 8)
    (-7) 2 (by decide) (by decide) (by decide) (by decide)

/-- Claim C6, counterexample.  XorReduce(IntLiteral(255, width=4))
resolves its evaluation width to 4, but the bit-parity loop does not
finish within 4 iterations; it needs 8, because IntLiteral.get_value
never truncates and hands the loop the full value 255. -/
theorem xor_loop_width_bound_counterexample :
    resolveExprWidth (.red none .xorr (.intLit none 255 4)) =
      some (.red (some 4) .xorr (.intLit (some 4) 255 4)) ∧
    xorLoopF 4 255 0 = none ∧ xorLoopF 8 255 0 = some 0 :=
  ⟨by decide, by decide, by decide⟩

/-- Claim C6 (amended): the XorReduce/XnorReduce bit loop terminates on
a nonnegative operand n within f iterations exactly when n is below 2
to the f (so exactly the bit length of n iterations are needed, which
exceeds the resolved width whenever the untruncated operand does not
fit in it), and never terminates on a negative operand. -/
theorem xor_loop_termination (n v : Int) (f : Nat) :
    (0 ≤ n → ((xorLoopF f n v).isSome = true ↔ n < 2 ^ f)) ∧
    (n < 0 → xorLoopF f n v = none) := by
  constructor
  · intro h0
    constructor
    · intro hsome
      by_contra hge
      rw [xorLoopF_nonterm f n v h0 (by omega)] at hsome
      exact Bool.noConfusion hsome
    · exact fun h1 => xorLoopF_term f n v h0 h1
  · exact fun hn => xorLoopF_neg f n v hn

/-- Witness for C6: parity of 11 finishes within 4 iterations, 16 does
not, and the loop on -1 makes no progress in 4 iterations (nor in any
other number of them). -/
theorem xor_loop_termination_witness :
    ((xorLoopF 4 11 0).isSome = true ↔ (11 : Int) < 2 ^ 4) ∧
    ((xorLoopF 4 16 0).isSome = true ↔ (16 : Int) < 2 ^ 4) ∧
    xorLoopF 4 (-1) 0 = none :=
  ⟨(xor_loop_termination 11 0 4).1 (by decide),
   (xor_loop_termination 16 0 4).1 (by decide),
   (xor_loop_termination (-1) 0 4).2 (by decide)⟩

/-- Claim C7, counterexample.  A ternary whose branches predict Bit and
int — both in the numeric-like set {numeric, boolean, single-bit} — is
rejected with the branch-incompatibility error instead of returning the
numeric type: the ternary unification set is [int, bool] and excludes
Bit. -/
theorem ternary_bit_branch_counterexample :
    predictType (.assignCast none (.intLit none 0 64) .bit) = .ok .bit ∧
    predictType (.ternary none (.intLit none 1 64)
      (.assignCast none (.intLit none 0 64) .bit)
      (.intLit none 0 64)) = .error (.compile msgTernBranch) ∧
    predictType (.ternary none (.intLit none 1 64)
      (.assignCast none (.intLit none 0 64) .bit)
      (.intLit none 0 64)) ≠ .ok .int :=
  ⟨by decide, by decide, by decide⟩

/-- Claim C7 (amended): TernaryExpr.predict_type errors on a condition
outside the numeric-like set {int, bool, Bit}; returns int when both
branch types are in {int, bool} (Bit excluded); otherwise returns the
common branch type when the two are equal and raises the
branch-incompatibility error when they differ. -/
theorem ternary_predict_type_rule (a : Option Int) (i j k : Expr)
    (ti tj tk : RdlType) (hi : predictType i = .ok ti)
    (hj : predictType j = .ok tj) (hk : predictType k = .ok tk) :
    predictType (.ternary a i j k) =
      if numericLike ti = false then .error (.compile msgCondBool)
      else if (tj = .int ∨ tj = .bool) ∧ (tk = .int ∨ tk = .bool) then .ok .int
      else if tj ≠ tk then .error (.compile msgTernBranch)
      else .ok tj := by
  simp only [predictType, hi, hj, hk]

/-- Witness for C7: both branches plain integers give result type int. -/
theorem ternary_predict_type_rule_witness :
    predictType (.ternary none (.intLit none 1 64)
      (.intLit none 3 64) (.intLit none 5 64)) =
      if numericLike .int = false then .error (.compile msgCondBool)
      else if ((RdlType.int = .int ∨ RdlType.int = .bool) ∧
          (RdlType.int = .int ∨ RdlType.int = .bool)) then .ok .int
      else if (RdlType.int : RdlType) ≠ .int then .error (.compile msgTernBranch)
      else .ok .int :=
  ternary_predict_type_rule none (.intLit none 1 64) (.intLit none 3 64)
    (.intLit none 5 64) .int .int .int rfl rfl rfl

/-- Claim C8, counterexample.  A shift whose left operand is a width-0
literal resolves to expr_eval_width 0 (shift resolve copies the operand
minimum width with no max(1, _) clamp), and a WidthCast constructed
with cast width 0 over a width-0 literal also resolves to width 0. -/
theorem shift_zero_width_counterexample :
    resolveExprWidth (.expShift none .lshift
      (.intLit none 5 0) (.intLit none 1 1)) =
      some (.expShift (some 0) .lshift
        (.intLit (some 0) 5 0) (.intLit none 1 1)) ∧
    resolveExprWidth (.widthCastI none (.intLit none 1 0) 0) =
      some (.widthCastI (some 0) (.intLit (some 0) 1 0) 0) :=
  ⟨by decide, by decide⟩

/-- Claim C8 (amended): every width the protocol resolves is at least 1
provided every integer literal is declared with width at least 1 and
every width cast carries a fixed cast width at least 1 (and any
propagated context width is itself at least 1); without that proviso,
shift/exponent resolve and WidthCast resolution adopt operand minimum
widths and cast widths unclamped and can resolve width 0. -/
theorem width_ge_one_under_pos_inputs (e : Expr) (w : Int)
    (hp : posW e = true) (hv : ewInv e = true) :
    (∀ e', resolveExprWidth e = some e' → ewInv e' = true) ∧
    (1 ≤ w → ∀ e', propagateEvalWidth e w = some e' → ewInv e' = true) ∧
    (∀ mw e', getMinEvalWidth e = some (mw, e') →
      ewInv e' = true ∧ 1 ≤ mw) := by
  refine ⟨?_, ?_, ?_⟩
  · intro e' h
    simp only [resolveExprWidth, Option.map_eq_some'] at h
    obtain ⟨rp, hrp, hr2⟩ := h
    rw [← hr2]
    exact ((width_pos_main (fuelFor e) e 0 rp).1 hp hv hrp).1
  · intro hw e' h
    simp only [propagateEvalWidth, Option.map_eq_some'] at h
    obtain ⟨rp, hrp, hr2⟩ := h
    rw [← hr2]
    exact ((width_pos_main (fuelFor e) e w rp).2.1 hp hv hw hrp).1
  · intro mw e' h
    have := (width_pos_main (fuelFor e) e 0 (mw, e')).2.2 hp hv h
    exact ⟨this.1, this.2.2⟩

/-- Witness for C8 at Add(5 width 8, 3 width 8). -/
theorem width_ge_one_under_pos_inputs_witness :
    ewInv (.binInt (some 8) .add
      (.intLit (some 8) 5 8) (.intLit (some 8) 3 8)) = true :=
  (width_ge_one_under_pos_inputs
    (.binInt none .add (.intLit none 5 8) (.intLit none 3 8)) 1
    (by decide) (by decide)).1
    (.binInt (some 8) .add (.intLit (some 8) 5 8) (.intLit (some 8) 3 8))
    (by decide)

/-- Claim C9, counterexample.  get_min_eval_width on a WidthCast whose
cast width is a sub-expression resolves and caches the cast width,
mutating both the cast node and the width sub-expression. -/
theorem get_min_mutates_counterexample :
    getMinEvalWidth (.widthCastE none (.intLit none 1 4)
      (.intLit none 8 64) none) =
      some (8, .widthCastE none (.intLit none 1 4)
        (.intLit (some 1) 8 64) (some 8)) ∧
    (.widthCastE none (.intLit none 1 4)
      (.intLit (some 1) 8 64) (some 8) : Expr) ≠
      .widthCastE none (.intLit none 1 4) (.intLit none 8 64) none :=
  ⟨by decide, by decide⟩

/-- Claim C9 (amended): get_min_eval_width mutates no state on any tree
containing no WidthCast with a still-unresolved dynamic cast width; the
exception is exactly the WidthCast-with-width-sub-expression nodes,
whose resolve_cast_width caches the cast width and resolves the width
sub-expression. -/
theorem get_min_eval_width_pure_without_pending_casts (e : Expr)
    (mw : Int) (e' : Expr) (hnp : noPend e = true)
    (h : getMinEvalWidth e = some (mw, e')) : e' = e :=
  gmin_pure_main (fuelFor e) e (mw, e') hnp h

/-- Witness for C9 at Add(5 width 8, 3 width 8). -/
theorem get_min_eval_width_pure_witness :
    (Expr.binInt none .add (.intLit none 5 8) (.intLit none 3 8)) =
      (Expr.binInt none .add (.intLit none 5 8) (.intLit none 3 8)) :=
  get_min_eval_width_pure_without_pending_casts
    (.binInt none .add (.intLit none 5 8) (.intLit none 3 8)) 8
    (.binInt none .add (.intLit none 5 8) (.intLit none 3 8))
    (by decide) (by decide)

/-- Claim C10: BoolNot.get_value negates the operand node object, which
is always truthy, rather than the operand's evaluated value, so it
returns False for every operand — without even evaluating it. -/
theorem boolNot_ignores_operand_value (a : Option Int) (x : Expr) :
    getValue (.red a .boolnot x) = .ok (.boolV false) := rfl
